import Mathlib

/-!
# Verification of the marketplace reconciliation engine

Shallow embedding of the column-matching and record-synchronization core
(`src/services/synchronizer/*`, `src/services/ai_comparator.py`,
`src/config/config.py`) together with proofs of the spec's testable
properties.  Cells are modelled as an inductive type covering the three
Python cell shapes (missing, string, number); Python floats are modelled
as exact rationals; the Semantic Oracle is a parameter supplying the
already-parsed response.
-/

set_option maxRecDepth 4096

namespace MarketSync

/-! ## Python string primitives -/
/-- Embeds `str.strip()`: drop whitespace from both ends. -/
def pyStrip (s : String) : String :=
  ⟨((s.data.dropWhile Char.isWhitespace).reverse.dropWhile Char.isWhitespace).reverse⟩

/-- Embeds Python `str.lower()` on the alphabets used by this code base
(ASCII and Cyrillic). -/
def pyLowerChar (c : Char) : Char :=
  if 'A' ≤ c ∧ c ≤ 'Z' then Char.ofNat (c.toNat + 32)
  else if c = 'Ё' then 'ё'
  else if 'А' ≤ c ∧ c ≤ 'Я' then Char.ofNat (c.toNat + 32)
  else c

def pyLower (s : String) : String := ⟨s.data.map pyLowerChar⟩

/-- Embeds `needle in hay` on Python strings (substring containment). -/
def pyIn (needle hay : String) : Bool :=
  hay.data.tails.any (fun t => needle.data.isPrefixOf t)

/-- Embeds `s.split()` (no separator): split on whitespace runs, dropping
empty pieces. -/
def pyWords (s : String) : List String :=
  ((s.data.splitOnP Char.isWhitespace).map (fun l => (⟨l⟩ : String))).filter
    (fun w => !w.isEmpty)

/-- Embeds `s.split(sep)` for a one-character separator: every occurrence
splits, empty pieces are kept. -/
def splitCharAux (sep : Char) : List Char → List Char → List String
  | [], acc => [⟨acc.reverse⟩]
  | c :: cs, acc =>
    if c = sep then (⟨acc.reverse⟩ : String) :: splitCharAux sep cs []
    else splitCharAux sep cs (c :: acc)

def pySplitChar (s : String) (sep : Char) : List String :=
  splitCharAux sep s.data []

/-- Embeds `sep.join(parts)`. -/
def pyJoin (sep : String) : List String → String
  | [] => ""
  | [v] => v
  | v :: vs => v ++ sep ++ pyJoin sep vs

/-- Membership of a string in a list, as Python's `in`. -/
def pyElem (v : String) (l : List String) : Bool := l.any (fun a => a == v)

/-! ## Validation chain: `ValidationChain` in `validation.py` -/
/-- Embeds `ValidationChain._normalize`: lower case, fold ё to е, strip. -/
def vNormalize (s : String) : String :=
  pyStrip ⟨(pyLower s).data.map (fun c => if c = 'ё' then 'е' else c)⟩

/-- Embeds `ValidationChain._extract_number`: first maximal run of digits. -/
def firstDigitRun : List Char → Option (List Char)
  | [] => none
  | c :: cs =>
    if c.isDigit then some (c :: cs.takeWhile Char.isDigit)
    else firstDigitRun cs

def extractNumber (s : String) : Option String :=
  (firstDigitRun s.data).map (fun l => (⟨l⟩ : String))

/-- Python truthiness of the optional string returned by one cascade level:
`None` and the empty string are falsy. -/
def truthyOpt : Option String → Option String
  | some s => if s.isEmpty then none else some s
  | none => none

/-- Level 1, `_exact_match`. -/
def exactMatch (value : String) (allowed : List String) : Option String :=
  if pyElem value allowed then some value else none

/-- Level 2, `_normalized_match`. -/
def normalizedMatch (value : String) (allowed : List String) : Option String :=
  allowed.find? (fun a => vNormalize a == vNormalize value)

/-- Level 3, `_number_match`. -/
def numberMatch (value : String) (allowed : List String) : Option String :=
  match extractNumber value with
  | none => none
  | some number =>
    if pyElem number allowed then some number
    else allowed.find? (fun a => extractNumber a == some number)

def subsetWords (vws aws : List String) : Bool := vws.all (fun w => pyElem w aws)

/-- Level 4, `_partial_match`: every normalized word of the value occurs in
the entry's normalized word set (the value must have at least one word). -/
def partialMatch (value : String) (allowed : List String) : Option String :=
  let vws := pyWords (vNormalize value)
  allowed.find? (fun a => !vws.isEmpty && subsetWords vws (pyWords (vNormalize a)))

/-- Embeds `AIComparator.match_value_with_list`.  `oracle` is the AI
response text for this query (`none` models the call raising). -/
def matchValueWithList (oracle : Option String) (value : String)
    (allowed : List String) : Option String :=
  if value.isEmpty || allowed.isEmpty then none
  else
    let vn := vNormalize value
    match allowed.find? (fun a => vNormalize a == vn) with
    | some a => some a
    | none =>
      let vws := pyWords vn
      match allowed.find? (fun a => subsetWords vws (pyWords (vNormalize a))) with
      | some a => some a
      | none =>
        match oracle with
        | none => none
        | some resp =>
          let matched := pyStrip resp
          if pyElem matched allowed then some matched
          else
            match allowed.find? (fun a => vNormalize matched == vNormalize a) with
            | some a => some a
            | none => none

/-- The value oracle: for each queried value the response text, or `none`
when either no `ai_comparator` was supplied (second layer `none`) or the
call raised. -/
abbrev ValueOracle := Option (String → Option String)

/-- Embeds `ValidationChain.validate_value`: the five-level cascade.
Each level's result passes Python's truthiness test before being
returned. -/
def validate_value (ai : ValueOracle) (value : String)
    (allowed : List String) : Option String :=
  if allowed.isEmpty then none
  else
    let v := pyStrip value
    match truthyOpt (exactMatch v allowed) with
    | some r => some r
    | none =>
    match truthyOpt (normalizedMatch v allowed) with
    | some r => some r
    | none =>
    match truthyOpt (numberMatch v allowed) with
    | some r => some r
    | none =>
    match truthyOpt (partialMatch v allowed) with
    | some r => some r
    | none =>
    match ai with
    | none => none
    | some oracle => truthyOpt (matchValueWithList (oracle v) v allowed)

/-! ## Decimal numbers: Python floats are modelled as exact rationals -/
/-- Decimal digits of a natural number, most significant first
(fuel-structured so that the kernel can evaluate it). -/
def natDigitsAux : ℕ → ℕ → List Char
  | 0, _ => []
  | fuel + 1, n =>
    if n < 10 then [Char.ofNat (48 + n)]
    else natDigitsAux fuel (n / 10) ++ [Char.ofNat (48 + n % 10)]

def natDigits (n : ℕ) : List Char := natDigitsAux (n + 1) n

def natStr (n : ℕ) : String := ⟨natDigits n⟩

/-- Embeds Python `str(i)` for an `int`. -/
def intStr (i : ℤ) : String :=
  if i < 0 then "-" ++ natStr i.natAbs else natStr i.natAbs

def digitsToNat (l : List Char) : ℕ :=
  l.foldl (fun acc c => 10 * acc + (c.toNat - 48)) 0

/-- Parse of an unsigned decimal literal (`digits`, `digits.`, `.digits`,
`digits.digits`) into an exact rational; embeds `float()` on the plain
decimal literals reachable in this code base. -/
def parseUnsignedFloat (l : List Char) : Option ℚ :=
  match splitCharAux '.' l [] with
  | [ip] =>
    if ip.data.isEmpty || !ip.data.all Char.isDigit then none
    else some (digitsToNat ip.data)
  | [ip, fp] =>
    if (ip.data.isEmpty && fp.data.isEmpty) ||
        !ip.data.all Char.isDigit || !fp.data.all Char.isDigit then none
    else some ((digitsToNat ip.data : ℚ) +
      (digitsToNat fp.data : ℚ) / (10 : ℚ) ^ fp.data.length)
  | _ => none

/-- Embeds Python `float(s)` (leading/trailing whitespace allowed, optional
sign). -/
def parsePyFloat (s : String) : Option ℚ :=
  match (pyStrip s).data with
  | '-' :: rest => (parseUnsignedFloat rest).map (fun q => -q)
  | '+' :: rest => parseUnsignedFloat rest
  | l => parseUnsignedFloat l

/-- Digits after the decimal point of `num/den` (`num < den`), up to `fuel`
digits, dropping the trailing zeros. -/
def fracDigits : ℕ → ℕ → ℕ → List Char
  | _, _, 0 => []
  | n, d, fuel + 1 =>
    if n = 0 then []
    else Char.ofNat (48 + (n * 10) / d) :: fracDigits ((n * 10) % d) d fuel

/-- Embeds `str()`/`repr()` of a Python float for the decimally-representable
values produced by this code base (shortest round-trip form). -/
def pyFloatStr (q : ℚ) : String :=
  let sign := if q < 0 then "-" else ""
  let n := q.num.natAbs
  let frac := fracDigits (n % q.den) q.den 17
  sign ++ natStr (n / q.den) ++ "." ++ (if frac.isEmpty then "0" else ⟨frac⟩)

/-- Embeds Python `round()` to an integer: nearest, ties to even. -/
def pyRound (q : ℚ) : ℤ :=
  let f := ⌊q⌋
  let frac := q - f
  if frac < 1/2 then f
  else if 1/2 < frac then f + 1
  else if f % 2 = 0 then f else f + 1

/-- Embeds Python `int()` on a float: truncation toward zero. -/
def pyInt (q : ℚ) : ℤ := if 0 ≤ q then ⌊q⌋ else ⌈q⌉

/-- Embeds `f-string` formatting `{v:.1f}`: one decimal digit, ties to
even. -/
def fmtOneDecimal (v : ℚ) : String :=
  let k := pyRound (v * 10)
  let sign := if v < 0 then "-" else ""
  sign ++ natStr (k.natAbs / 10) ++ "." ++ natStr (k.natAbs % 10)

/-- Embeds `ValueConverter.smart_format`: an integer when within 0.01 of the
rounded value, else one decimal place. -/
def smart_format (val : ℚ) : String :=
  if |val - (pyRound val : ℚ)| < 1/100 then intStr (pyRound val)
  else fmtOneDecimal val

/-! ## Cells and marketplaces -/
/-- One spreadsheet cell as the synchronizer sees it: missing (`None`), a
string, or a number (Python float/int, modelled exactly). -/
inductive Cell where
  | na : Cell
  | str (s : String) : Cell
  | num (q : ℚ) : Cell
deriving DecidableEq, Repr

/-- The three catalogs, keyed in the source by the strings `'wildberries'`,
`'ozon'`, `'yandex'`. -/
inductive MP where
  | wb | ozon | yandex
deriving DecidableEq, Repr

/-- Embeds `str(v)` on a cell (`astype(str)` renders missing cells as the
text of `None`). -/
def cellStr : Cell → String
  | .na => "None"
  | .str s => s
  | .num q => pyFloatStr q

/-- Embeds `float(v)` on a cell; `none` models the raised error. -/
def cellFloat : Cell → Option ℚ
  | .na => none
  | .str s => parsePyFloat s
  | .num q => some q

/-- Python truthiness of a cell value (`None` and empty strings and zero are
falsy). -/
def cellTruthy : Cell → Bool
  | .na => false
  | .str s => !s.isEmpty
  | .num q => decide (q ≠ 0)

/-- Embeds the ubiquitous guard `pd.notna(v) and str(v).strip()`. -/
def cellNonEmpty : Cell → Bool
  | .na => false
  | .str s => !(pyStrip s).isEmpty
  | .num q => !(pyStrip (pyFloatStr q)).isEmpty

/-! ## Multi-value validation: `validate_multiple_values` -/
/-- Modelled from the spec: `constants.py` (which defines
`VALUE_SEPARATORS`) is not in the source tree.  Per the spec's multi-value
join rule and the inline comment in `validation.py` (Ozon `"; "`,
Yandex `", "`), wildberries has no separator entry. -/
def VALUE_SEPARATORS : MP → Option String
  | .ozon => some "; "
  | .yandex => some ", "
  | .wb => none

/-- The per-part validation loop of `validate_multiple_values`: first
falsy result aborts with `None`. -/
def validatePartsLoop (ai : ValueOracle) (allowed : List String) :
    List String → Option (List String)
  | [] => some []
  | p :: ps =>
    match truthyOpt (validate_value ai p allowed) with
    | some v => (validatePartsLoop ai allowed ps).map (fun vs => v :: vs)
    | none => none

/-- Embeds `ValidationChain.validate_multiple_values`. -/
def validate_multiple_values (ai : ValueOracle) (mp : MP) (value : Cell)
    (allowed : List String) : Option String :=
  if !cellTruthy value then none
  else
    let v := pyStrip (cellStr value)
    if !pyIn ";" v then validate_value ai v allowed
    else
      match validatePartsLoop ai allowed
          (((pySplitChar v ';').map pyStrip).filter (fun p => !p.isEmpty)) with
      | none => none
      | some vs =>
        if vs.isEmpty then none
        else
          match mp with
          | .wb => some (vs.headD "")
          | _ =>
            match VALUE_SEPARATORS mp with
            | some sep => if sep.isEmpty then none else some (pyJoin sep vs)
            | none => none

/-! ## Static configuration: `config.py` -/

/-- `Config.EXCLUDED_COLUMNS`. -/
def EXCLUDED_COLUMNS : List String :=
  ["Цена", "Цена, руб.*", "Цена *", "Розничная цена", "Цена до скидки",
   "Старая цена", "Rich-контент JSON", "НДС, %*", "Ставка НДС"]

/-- Embeds `ColumnValidator.is_excluded_column`. -/
def is_excluded_column (col : String) : Bool :=
  if col.isEmpty then false
  else EXCLUDED_COLUMNS.any (fun e => pyLower (pyStrip e) == pyLower (pyStrip col))

/-- One entry of `Config.MANDATORY_MATCHES`. -/
structure MandTemplate where
  column_1 : String
  column_2 : String
  column_3 : String
  description : String
deriving DecidableEq, Repr

def MANDATORY_MATCHES : List MandTemplate :=
  [⟨"Артикул продавца", "Артикул*", "Ваш SKU *", "Уникальный артикул товара"⟩,
   ⟨"Баркоды", "Штрихкод (Серийный номер / EAN)", "Штрихкод *", "Штрихкод товара"⟩,
   ⟨"Бренд", "Бренд*", "Бренд *", "Бренд производителя"⟩,
   ⟨"Наименование", "Название товара", "Название товара *", "Название товара"⟩,
   ⟨"Описание", "Аннотация", "Описание товара *", "Описание товара"⟩,
   ⟨"Вес с упаковкой (кг)", "Вес в упаковке, г*", "Вес с упаковкой, кг", "Вес товара с упаковкой"⟩,
   ⟨"Фото", "Ссылки на дополнительные фото", "Ссылка на изображение *", "Фотографии товара"⟩]

/-- `ARTICLE_COLUMNS` of `synchronizer.constants` (values as recorded in
`services/data_synchronizer.py`). -/
def ARTICLE_COLUMNS : MP → String
  | .wb => "Артикул продавца"
  | .ozon => "Артикул*"
  | .yandex => "Ваш SKU *"

/-- `DIMENSIONS_MAPPING` columns for the three catalogs. -/
def wbLengthCol : String := "Длина упаковки (целое число)"

def wbWidthCol : String := "Ширина упаковки (целое число)"

def wbHeightCol : String := "Высота упаковки (целое число)"

def ozonLengthCol : String := "Длина упаковки, мм*"

def ozonWidthCol : String := "Ширина упаковки, мм*"

def ozonHeightCol : String := "Высота упаковки, мм*"

def yandexCompositeCol : String := "Габариты с упаковкой, см"

/-! ## Unit converters: `converters.py` -/

inductive MUnit where
  | kg | g | mm | cm
deriving DecidableEq, Repr

def mm_to_cm (v : ℚ) : ℚ := v / 10

def cm_to_mm (v : ℚ) : ℚ := v * 10

def kg_to_g (v : ℚ) : ℚ := v * 1000

def g_to_kg (v : ℚ) : ℚ := v / 1000

def pyEndsWith (suffix s : String) : Bool := suffix.data.isSuffixOf s.data

/-- Embeds `ValueConverter.detect_unit`. -/
def detect_unit (columnName : String) : Option MUnit :=
  if columnName.isEmpty then none
  else
    let cl := pyLower columnName
    if pyIn "кг" cl || pyIn "kg" cl then some .kg
    else if pyIn " г" cl || pyIn ",г" cl || pyIn "gram" cl || pyEndsWith "г" cl then some .g
    else if pyIn "мм" cl || pyIn "mm" cl then some .mm
    else if pyIn "см" cl || pyIn "cm" cl then some .cm
    else none

/-- Embeds `ValueConverter.convert_value` (a failed `float()` returns the
value unchanged). -/
def convert_value (value : Cell) (fromU toU : Option MUnit) : Cell :=
  if fromU.isNone || toU.isNone || fromU == toU then value
  else if value = Cell.na then value
  else
    match cellFloat value with
    | none => value
    | some q =>
      match fromU, toU with
      | some .kg, some .g => .num (kg_to_g q)
      | some .g, some .kg => .num (g_to_kg q)
      | some .mm, some .cm => .num (mm_to_cm q)
      | some .cm, some .mm => .num (cm_to_mm q)
      | _, _ => value

/-! ## Composite dimensions: `dimensions.py` -/

structure Dims where
  length : ℚ
  width : ℚ
  height : ℚ
deriving DecidableEq, Repr

/-- Embeds `DimensionsSynchronizer.parse_composite_dimensions`. -/
def parse_composite_dimensions (value : Cell) : Option Dims :=
  if value = Cell.na || (pyStrip (cellStr value)).isEmpty then none
  else
    match pySplitChar (pyStrip (cellStr value)) '/' with
    | [p1, p2, p3] =>
      match parsePyFloat p1, parsePyFloat p2, parsePyFloat p3 with
      | some l, some w, some h =>
        if 0 < l ∧ 0 < w ∧ 0 < h then some ⟨l, w, h⟩ else none
      | _, _, _ => none
    | _ => none

/-- Embeds `DimensionsSynchronizer.format_composite_dimensions`. -/
def format_composite_dimensions (l w h : ℚ) : String :=
  smart_format l ++ "/" ++ smart_format w ++ "/" ++ smart_format h

/-! ## Tables: one catalog's DataFrame as an ordered list of rows -/

/-- One row: the cells keyed by (unique, already de-duplicated) column
label. -/
abbrev Row := List (String × Cell)

def Row.getCell (r : Row) (col : String) : Cell :=
  match r with
  | [] => Cell.na
  | (k, v) :: rest => if k = col then v else Row.getCell rest col

def Row.setCell (r : Row) (col : String) (c : Cell) : Row :=
  match r with
  | [] => []
  | (k, v) :: rest =>
    if k = col then (k, c) :: rest else (k, v) :: Row.setCell rest col c

/-- A catalog table (positional row index, as after `reset_index`). -/
structure Df where
  cols : List String
  rows : List Row
deriving DecidableEq, Repr

def Df.getAt (df : Df) (idx : ℕ) (col : String) : Cell :=
  match df.rows[idx]? with
  | some r => r.getCell col
  | none => Cell.na

def setRowAt : List Row → ℕ → String → Cell → List Row
  | [], _, _, _ => []
  | r :: rs, 0, col, c => r.setCell col c :: rs
  | r :: rs, n + 1, col, c => r :: setRowAt rs n col c

def Df.setAt (df : Df) (idx : ℕ) (col : String) (c : Cell) : Df :=
  { df with rows := setRowAt df.rows idx col c }

def Df.hasCol (df : Df) (col : String) : Bool := pyElem col df.cols

/-- The three tables of one run. -/
structure Dfs where
  wb : Df
  ozon : Df
  yandex : Df
deriving DecidableEq, Repr

def Dfs.get : Dfs → MP → Df
  | d, .wb => d.wb
  | d, .ozon => d.ozon
  | d, .yandex => d.yandex

def Dfs.set : Dfs → MP → Df → Dfs
  | d, .wb, x => { d with wb := x }
  | d, .ozon, x => { d with ozon := x }
  | d, .yandex, x => { d with yandex := x }

/-- A Python `dict` as an insertion-ordered association list: overwriting
keeps the original position, new keys are appended. -/
def dictUpsert {α : Type} : List (String × α) → String → α → List (String × α)
  | [], k, v => [(k, v)]
  | (k', v') :: rest, k, v =>
    if k' = k then (k', v) :: rest else (k', v') :: dictUpsert rest k v

def dictGet? {α : Type} : List (String × α) → String → Option α
  | [], _ => none
  | (k', v') :: rest, k => if k' = k then some v' else dictGet? rest k

def dictKeys {α : Type} (m : List (String × α)) : List String := m.map Prod.fst

/-- Set union realised as an ordered duplicate-free list. -/
def unionList : List String → List String → List String
  | acc, [] => acc
  | acc, x :: xs => unionList (if pyElem x acc then acc else acc ++ [x]) xs

/-- `pd.notna(v)`. -/
def cellNotNa : Cell → Bool
  | .na => false
  | _ => true

/-- `mask = df[artCol].astype(str).str.strip() == article; df[mask].index[0]`. -/
def findRowIdx (df : Df) (artCol article : String) : Option ℕ :=
  df.rows.findIdx? (fun r => pyStrip (cellStr (r.getCell artCol)) == article)

/-- A write guarded by "target is missing or whitespace-only". -/
def writeIfEmpty (df : Df) (idx : ℕ) (col : String) (c : Cell) : Df × ℕ :=
  if cellNonEmpty (df.getAt idx col) then (df, 0)
  else (df.setAt idx col c, 1)

/-! ## Dimension synchronizer passes -/

/-- Step 1 of `sync_dimensions`: read the composite Yandex dimensions. -/
def collectYandexDims (df : Df) : List (String × Dims) :=
  if df.hasCol yandexCompositeCol then
    df.rows.foldl (fun m r =>
      let article := r.getCell (ARTICLE_COLUMNS .yandex)
      if cellNonEmpty article then
        match parse_composite_dimensions (r.getCell yandexCompositeCol) with
        | some dims => dictUpsert m (pyStrip (cellStr article)) dims
        | none => m
      else m) []
  else []

/-- Step 2: read the WB separate columns (already in cm). -/
def collectWbDims (df : Df) : List (String × Dims) :=
  df.rows.foldl (fun m r =>
    let article := r.getCell (ARTICLE_COLUMNS .wb)
    if cellNonEmpty article then
      let l := r.getCell wbLengthCol
      let w := r.getCell wbWidthCol
      let h := r.getCell wbHeightCol
      if cellNonEmpty l && cellNonEmpty w && cellNonEmpty h then
        match cellFloat l, cellFloat w, cellFloat h with
        | some lq, some wq, some hq =>
          dictUpsert m (pyStrip (cellStr article)) ⟨lq, wq, hq⟩
        | _, _, _ => m
      else m
    else m) []

/-- Step 3: read the Ozon separate columns, converting mm to cm. -/
def collectOzonDims (df : Df) : List (String × Dims) :=
  df.rows.foldl (fun m r =>
    let article := r.getCell (ARTICLE_COLUMNS .ozon)
    if cellNonEmpty article then
      let l := r.getCell ozonLengthCol
      let w := r.getCell ozonWidthCol
      let h := r.getCell ozonHeightCol
      if cellNonEmpty l && cellNonEmpty w && cellNonEmpty h then
        match cellFloat l, cellFloat w, cellFloat h with
        | some lq, some wq, some hq =>
          dictUpsert m (pyStrip (cellStr article))
            ⟨mm_to_cm lq, mm_to_cm wq, mm_to_cm hq⟩
        | _, _, _ => m
      else m
    else m) []

/-- One entry of `_sync_yandex_to_others`. -/
def syncYandexEntry (dfs : Dfs) (article : String) (d : Dims) : Dfs × ℕ :=
  let (dfW, cW) :=
    match findRowIdx dfs.wb (ARTICLE_COLUMNS .wb) article with
    | some idx =>
      let (d1, a) := writeIfEmpty dfs.wb idx wbLengthCol (Cell.num d.length)
      let (d2, b) := writeIfEmpty d1 idx wbWidthCol (Cell.num d.width)
      let (d3, c) := writeIfEmpty d2 idx wbHeightCol (Cell.num d.height)
      (d3, a + b + c)
    | none => (dfs.wb, 0)
  let (dfO, cO) :=
    match findRowIdx dfs.ozon (ARTICLE_COLUMNS .ozon) article with
    | some idx =>
      let (d1, a) := writeIfEmpty dfs.ozon idx ozonLengthCol
        (Cell.num (pyInt (cm_to_mm d.length) : ℚ))
      let (d2, b) := writeIfEmpty d1 idx ozonWidthCol
        (Cell.num (pyInt (cm_to_mm d.width) : ℚ))
      let (d3, c) := writeIfEmpty d2 idx ozonHeightCol
        (Cell.num (pyInt (cm_to_mm d.height) : ℚ))
      (d3, a + b + c)
    | none => (dfs.ozon, 0)
  ({ dfs with wb := dfW, ozon := dfO }, cW + cO)

def sync_yandex_to_others (dfs : Dfs) (yd : List (String × Dims)) : Dfs × ℕ :=
  yd.foldl (fun acc e =>
    let (d2, c) := syncYandexEntry acc.1 e.1 e.2
    (d2, acc.2 + c)) (dfs, 0)

/-- One entry of `_sync_wb_to_yandex`. -/
def syncWbEntry (dfs : Dfs) (yd : List (String × Dims)) (article : String)
    (d : Dims) : Dfs × ℕ :=
  if (dictGet? yd article).isSome then (dfs, 0)
  else
    match findRowIdx dfs.yandex (ARTICLE_COLUMNS .yandex) article with
    | some idx =>
      let (dfY, c) := writeIfEmpty dfs.yandex idx yandexCompositeCol
        (Cell.str (format_composite_dimensions d.length d.width d.height))
      ({ dfs with yandex := dfY }, c)
    | none => (dfs, 0)

def sync_wb_to_yandex (dfs : Dfs) (wd yd : List (String × Dims)) : Dfs × ℕ :=
  wd.foldl (fun acc e =>
    let (d2, c) := syncWbEntry acc.1 yd e.1 e.2
    (d2, acc.2 + c)) (dfs, 0)

/-- One entry of `_sync_ozon_to_others`. -/
def syncOzonEntry (dfs : Dfs) (yd : List (String × Dims)) (article : String)
    (d : Dims) : Dfs × ℕ :=
  let (dfs1, c1) :=
    if (dictGet? yd article).isSome then (dfs, 0)
    else
      match findRowIdx dfs.yandex (ARTICLE_COLUMNS .yandex) article with
      | some idx =>
        let (dfY, c) := writeIfEmpty dfs.yandex idx yandexCompositeCol
          (Cell.str (format_composite_dimensions d.length d.width d.height))
        ({ dfs with yandex := dfY }, c)
      | none => (dfs, 0)
  let (dfs2, c2) :=
    match findRowIdx dfs1.wb (ARTICLE_COLUMNS .wb) article with
    | some idx =>
      let (d1, a) := writeIfEmpty dfs1.wb idx wbLengthCol (Cell.num d.length)
      let (d2, b) := writeIfEmpty d1 idx wbWidthCol (Cell.num d.width)
      let (d3, c) := writeIfEmpty d2 idx wbHeightCol (Cell.num d.height)
      ({ dfs1 with wb := d3 }, a + b + c)
    | none => (dfs1, 0)
  (dfs2, c1 + c2)

def sync_ozon_to_others (dfs : Dfs) (od yd : List (String × Dims)) : Dfs × ℕ :=
  od.foldl (fun acc e =>
    let (d2, c) := syncOzonEntry acc.1 yd e.1 e.2
    (d2, acc.2 + c)) (dfs, 0)

/-- Embeds `DimensionsSynchronizer.sync_dimensions` (a missing separate
column aborts the whole pass with whatever was counted so far, i.e.
nothing). -/
def sync_dimensions (dfs : Dfs) : Dfs × ℕ :=
  let yd := collectYandexDims dfs.yandex
  if !(dfs.wb.hasCol wbLengthCol && dfs.wb.hasCol wbWidthCol &&
        dfs.wb.hasCol wbHeightCol) then (dfs, 0)
  else
    let wd := collectWbDims dfs.wb
    if !(dfs.ozon.hasCol ozonLengthCol && dfs.ozon.hasCol ozonWidthCol &&
          dfs.ozon.hasCol ozonHeightCol) then (dfs, 0)
    else
      let od := collectOzonDims dfs.ozon
      let (dfs1, c1) := sync_yandex_to_others dfs yd
      let (dfs2, c2) := sync_wb_to_yandex dfs1 wd yd
      let (dfs3, c3) := sync_ozon_to_others dfs2 od yd
      (dfs3, c1 + c2 + c3)

/-! ## Row aligner: `alignment.py` -/

def GUIDANCE_KEYWORDS : List String :=
  ["идентифицировать", "описание", "заполнить", "пример", "название товара",
   "по которому"]

/-- The `str.contains(..., case=False)` filter of the aligner. -/
def hasGuidanceKw (s : String) : Bool :=
  GUIDANCE_KEYWORDS.any (fun kw => pyIn kw (pyLower s))

def articleCells (df : Df) (artCol : String) : List Cell :=
  df.rows.map (fun r => r.getCell artCol)

/-- The identifier-cleaning pipeline shared by `_collect_all_articles` and
`_add_missing_articles`: dropna, `str`, strip, drop blanks, drop guidance
text, drop length ≥ 50. -/
def cleanArticles (cells : List Cell) : List String :=
  ((((cells.filter cellNotNa).map (fun c => pyStrip (cellStr c))).filter
      (fun a => !a.isEmpty)).filter
      (fun a => !hasGuidanceKw a)).filter (fun a => a.length < 50)

/-- Embeds `_collect_all_articles`. -/
def collect_all_articles (dfs : Dfs) : List String :=
  [MP.wb, MP.ozon, MP.yandex].foldl (fun acc mp =>
    let df := dfs.get mp
    if df.hasCol (ARTICLE_COLUMNS mp) then
      unionList acc (cleanArticles (articleCells df (ARTICLE_COLUMNS mp)))
    else acc) []

/-- Positions of the rows whose identifier survives the cleaning. -/
def validPositions (df : Df) (artCol : String) : List ℕ :=
  (df.rows.enum.filter (fun p =>
    let c := p.2.getCell artCol
    cellNotNa c &&
      (let a := pyStrip (cellStr c)
       !a.isEmpty && !hasGuidanceKw a && a.length < 50))).map Prod.fst

/-- Python string order (code-point lexicographic). -/
def pyLexLt : List Char → List Char → Bool
  | [], [] => false
  | [], _ :: _ => true
  | _ :: _, [] => false
  | c :: cs, d :: ds =>
    if c.toNat < d.toNat then true
    else if d.toNat < c.toNat then false
    else pyLexLt cs ds

/-- Stable ascending insertion sort; `sorted()` of a set of distinct
strings has exactly this result. -/
def insertSorted (x : String) : List String → List String
  | [] => [x]
  | y :: ys => if pyLexLt x.data y.data then x :: y :: ys else y :: insertSorted x ys

def sortStrings : List String → List String
  | [] => []
  | x :: xs => insertSorted x (sortStrings xs)

/-- Embeds `_add_missing_articles` (net effect on the frame; the
in-place reconstruction equals replacing the rows). -/
def add_missing_articles (df : Df) (artCol : String)
    (allArts : List String) : Df :=
  let existing := cleanArticles (articleCells df artCol)
  let lastFilled := (validPositions df artCol).getLast?
  let missing := allArts.filter (fun a => !pyElem a existing)
  if missing.isEmpty then df
  else
    let newRows := (sortStrings missing).map (fun a =>
      Row.setCell (df.cols.map (fun c => (c, Cell.na))) artCol (Cell.str a))
    let rows' :=
      match lastFilled with
      | some pos => df.rows.take (pos + 1) ++ newRows ++ df.rows.drop (pos + 1)
      | none => newRows ++ df.rows
    { df with rows := rows' }

/-- Embeds `ArticleAligner.align_articles`: the union is collected once,
then each catalog (in the fixed order) receives its missing rows. -/
def align_articles (dfs : Dfs) : Dfs :=
  let allArts := collect_all_articles dfs
  let d1 :=
    if dfs.wb.hasCol (ARTICLE_COLUMNS .wb) then
      dfs.set .wb (add_missing_articles dfs.wb (ARTICLE_COLUMNS .wb) allArts)
    else dfs
  let d2 :=
    if d1.ozon.hasCol (ARTICLE_COLUMNS .ozon) then
      d1.set .ozon (add_missing_articles d1.ozon (ARTICLE_COLUMNS .ozon) allArts)
    else d1
  if d2.yandex.hasCol (ARTICLE_COLUMNS .yandex) then
    d2.set .yandex (add_missing_articles d2.yandex (ARTICLE_COLUMNS .yandex) allArts)
  else d2

/-! ## Correspondence sets -/

/-- One correspondence as parsed from an Oracle response or injected as a
mandatory match (`dict.get` of an absent key is `none`). -/
structure MatchEntry where
  c1 : Option String := none
  c2 : Option String := none
  c3 : Option String := none
  confidence : ℚ := 0
  mandatory : Bool := false
deriving DecidableEq, Repr

/-- The four-way partition returned by `compare_columns` and consumed by
the synchronizer. -/
structure CompResult where
  all3 : List MatchEntry
  m12 : List MatchEntry
  m13 : List MatchEntry
  m23 : List MatchEntry
  u1 : List String
  u2 : List String
  u3 : List String
deriving DecidableEq, Repr

/-! ## Record synchronizer: `core.py` -/

/-- `column_validations` as loaded from the constraint metadata; `[]`
models an absent allow-list. -/
abbrev Validations := MP → String → List String

/-- Embeds `_create_article_map`: article → (positional index, cell of the
value column), later rows overwriting earlier ones. -/
def create_article_map (df : Df) (articleCol valueCol : String) :
    List (String × ℕ × Cell) :=
  df.rows.enum.foldl (fun m p =>
    let article := p.2.getCell articleCol
    if cellNonEmpty article then
      dictUpsert m (pyStrip (cellStr article)) (p.1, p.2.getCell valueCol)
    else m) []

/-- Embeds `_find_source_value`: first catalog in canonical order with a
non-empty value. -/
def find_source_value (vW vO vY : Cell) (uW uO uY : Option MUnit) :
    Option (Cell × Option MUnit) :=
  if cellNonEmpty vW then some (vW, uW)
  else if cellNonEmpty vO then some (vO, uO)
  else if cellNonEmpty vY then some (vY, uY)
  else none

/-- Embeds `_fill_marketplace_value` (frames are object-typed here, so the
written value is stored unchanged; a write error is out of model). -/
def fill_marketplace_value (ai : ValueOracle) (validations : Validations)
    (df : Df) (article col : String) (sourceValue : Cell)
    (sourceUnit targetUnit : Option MUnit) (mp : MP)
    (dataMap : List (String × ℕ × Cell)) (currentValue : Cell) : Df × ℕ :=
  if cellNonEmpty currentValue then (df, 0)
  else
    match dictGet? dataMap article with
    | none => (df, 0)
    | some (idx, _) =>
      let conv := convert_value sourceValue sourceUnit targetUnit
      let allowed := validations mp col
      let final := validate_multiple_values ai mp conv allowed
      match truthyOpt final with
      | some v => (df.setAt idx col (Cell.str v), 1)
      | none =>
        if allowed.isEmpty then (df.setAt idx col conv, 1)
        else (df, 0)

/-- The composite value `_fill_composite_dimensions` builds from the WB or
Ozon separate columns, depending on which catalog the source unit points
at. -/
def composite_source (dfs : Dfs) (article : String)
    (sourceUnit unitW unitO : Option MUnit) : Option String :=
  if sourceUnit == unitW then
          match findRowIdx dfs.wb (ARTICLE_COLUMNS .wb) article with
          | some ridx =>
            match dfs.wb.rows[ridx]? with
            | some r =>
              let l := r.getCell wbLengthCol
              let w := r.getCell wbWidthCol
              let h := r.getCell wbHeightCol
              if cellNotNa l && cellNotNa w && cellNotNa h then
                match cellFloat l, cellFloat w, cellFloat h with
                | some lq, some wq, some hq =>
                  some (format_composite_dimensions lq wq hq)
                | _, _, _ => none
              else none
            | none => none
          | none => none
        else if sourceUnit == unitO then
          match findRowIdx dfs.ozon (ARTICLE_COLUMNS .ozon) article with
          | some ridx =>
            match dfs.ozon.rows[ridx]? with
            | some r =>
              let l := r.getCell ozonLengthCol
              let w := r.getCell ozonWidthCol
              let h := r.getCell ozonHeightCol
              if cellNotNa l && cellNotNa w && cellNotNa h then
                match cellFloat l, cellFloat w, cellFloat h with
                | some lq, some wq, some hq =>
                  some (format_composite_dimensions
                    (mm_to_cm lq) (mm_to_cm wq) (mm_to_cm hq))
                | _, _, _ => none
              else none
            | none => none
          | none => none
        else none

/-- Embeds `_fill_composite_dimensions`. -/
def fill_composite_dimensions (dfs : Dfs) (article colYandex : String)
    (sourceUnit unitW unitO : Option MUnit)
    (yandexData : List (String × ℕ × Cell)) (currentValue : Cell) : Dfs × ℕ :=
  if cellNonEmpty currentValue then (dfs, 0)
  else
    match dictGet? yandexData article with
    | none => (dfs, 0)
    | some (idx, _) =>
      match composite_source dfs article sourceUnit unitW unitO with
      | some c => ({ dfs with yandex := dfs.yandex.setAt idx colYandex (Cell.str c) }, 1)
      | none => (dfs, 0)

/-- The per-article body of `_sync_three_columns`. -/
def syncThreeStep (ai : ValueOracle) (validations : Validations)
    (colW colO colY : String) (unitW unitO unitY : Option MUnit)
    (wbData ozonData yandexData : List (String × ℕ × Cell))
    (acc : Dfs × ℕ) (article : String) : Dfs × ℕ :=
  if article.isEmpty then acc
  else
    match find_source_value (((dictGet? wbData article).map (·.2)).getD Cell.na)
        (((dictGet? ozonData article).map (·.2)).getD Cell.na)
        (((dictGet? yandexData article).map (·.2)).getD Cell.na)
        unitW unitO unitY with
    | none => acc
    | some (sv, su) =>
      let (dfW, c1) := fill_marketplace_value ai validations acc.1.wb article
        colW sv su unitW .wb wbData
        (((dictGet? wbData article).map (·.2)).getD Cell.na)
      let (dfO, c2) := fill_marketplace_value ai validations acc.1.ozon article
        colO sv su unitO .ozon ozonData
        (((dictGet? ozonData article).map (·.2)).getD Cell.na)
      if colY == yandexCompositeCol then
        let (dfs3, c3) := fill_composite_dimensions
          { acc.1 with wb := dfW, ozon := dfO } article colY su
          unitW unitO yandexData
          (((dictGet? yandexData article).map (·.2)).getD Cell.na)
        (dfs3, acc.2 + c1 + c2 + c3)
      else
        let (dfY, c3) := fill_marketplace_value ai validations acc.1.yandex
          article colY sv su unitY .yandex yandexData
          (((dictGet? yandexData article).map (·.2)).getD Cell.na)
        ({ acc.1 with wb := dfW, ozon := dfO, yandex := dfY }, acc.2 + c1 + c2 + c3)

/-- Embeds `_sync_three_columns`. -/
def sync_three_columns (ai : ValueOracle) (validations : Validations)
    (dfs : Dfs) (colW colO colY : String) : Dfs × ℕ :=
  (unionList (unionList (unionList []
      (dictKeys (create_article_map dfs.wb (ARTICLE_COLUMNS .wb) colW)))
      (dictKeys (create_article_map dfs.ozon (ARTICLE_COLUMNS .ozon) colO)))
      (dictKeys (create_article_map dfs.yandex (ARTICLE_COLUMNS .yandex) colY))).foldl
    (syncThreeStep ai validations colW colO colY
      (detect_unit colW) (detect_unit colO) (detect_unit colY)
      (create_article_map dfs.wb (ARTICLE_COLUMNS .wb) colW)
      (create_article_map dfs.ozon (ARTICLE_COLUMNS .ozon) colO)
      (create_article_map dfs.yandex (ARTICLE_COLUMNS .yandex) colY))
    (dfs, 0)

/-- The first directed fill of `_sync_two_columns` (fill `mp1` from `mp2`
when the former is empty and the latter is not). -/
def syncTwoFillA (ai : ValueOracle) (validations : Validations)
    (mp1 : MP) (col1 : String) (unit1 unit2 : Option MUnit)
    (data1 : List (String × ℕ × Cell)) (v1 v2 : Cell) (base : Dfs)
    (article : String) : Dfs × ℕ :=
  if !cellNonEmpty v1 && cellNonEmpty v2 then
    (base.set mp1 (fill_marketplace_value ai validations (base.get mp1)
        article col1 v2 unit2 unit1 mp1 data1 v1).1,
     (fill_marketplace_value ai validations (base.get mp1)
        article col1 v2 unit2 unit1 mp1 data1 v1).2)
  else (base, 0)

/-- The per-article body of `_sync_two_columns`. -/
def syncTwoStep (ai : ValueOracle) (validations : Validations)
    (mp1 mp2 : MP) (col1 col2 : String) (unit1 unit2 : Option MUnit)
    (data1 data2 : List (String × ℕ × Cell))
    (acc : Dfs × ℕ) (article : String) : Dfs × ℕ :=
  if article.isEmpty then acc
  else
    ((syncTwoFillA ai validations mp2 col2 unit2 unit1 data2
        (((dictGet? data2 article).map (·.2)).getD Cell.na)
        (((dictGet? data1 article).map (·.2)).getD Cell.na)
        (syncTwoFillA ai validations mp1 col1 unit1 unit2 data1
          (((dictGet? data1 article).map (·.2)).getD Cell.na)
          (((dictGet? data2 article).map (·.2)).getD Cell.na) acc.1 article).1
        article).1,
     acc.2 +
      (syncTwoFillA ai validations mp1 col1 unit1 unit2 data1
        (((dictGet? data1 article).map (·.2)).getD Cell.na)
        (((dictGet? data2 article).map (·.2)).getD Cell.na) acc.1 article).2 +
      (syncTwoFillA ai validations mp2 col2 unit2 unit1 data2
        (((dictGet? data2 article).map (·.2)).getD Cell.na)
        (((dictGet? data1 article).map (·.2)).getD Cell.na)
        (syncTwoFillA ai validations mp1 col1 unit1 unit2 data1
          (((dictGet? data1 article).map (·.2)).getD Cell.na)
          (((dictGet? data2 article).map (·.2)).getD Cell.na) acc.1 article).1
        article).2)

/-- Embeds `_sync_two_columns`. -/
def sync_two_columns (ai : ValueOracle) (validations : Validations)
    (dfs : Dfs) (mp1 mp2 : MP) (col1 col2 : String) : Dfs × ℕ :=
  (unionList (unionList []
      (dictKeys (create_article_map (dfs.get mp1) (ARTICLE_COLUMNS mp1) col1)))
      (dictKeys (create_article_map (dfs.get mp2) (ARTICLE_COLUMNS mp2) col2))).foldl
    (syncTwoStep ai validations mp1 mp2 col1 col2
      (detect_unit col1) (detect_unit col2)
      (create_article_map (dfs.get mp1) (ARTICLE_COLUMNS mp1) col1)
      (create_article_map (dfs.get mp2) (ARTICLE_COLUMNS mp2) col2))
    (dfs, 0)

/-- The per-correspondence body of `_sync_three_way_matches`. -/
def sync3MatchStep (ai : ValueOracle) (validations : Validations)
    (acc : Dfs × ℕ) (m : MatchEntry) : Dfs × ℕ :=
  match truthyOpt m.c1, truthyOpt m.c2, truthyOpt m.c3 with
  | some colW, some colO, some colY =>
    if is_excluded_column colW || is_excluded_column colO ||
        is_excluded_column colY then acc
    else if !(acc.1.wb.hasCol colW && acc.1.ozon.hasCol colO &&
        acc.1.yandex.hasCol colY) then acc
    else
      let (d, c) := sync_three_columns ai validations acc.1 colW colO colY
      (d, acc.2 + c)
  | _, _, _ => acc

/-- Embeds `_sync_three_way_matches`. -/
def sync_three_way_matches (ai : ValueOracle) (validations : Validations)
    (cmp : CompResult) (dfs : Dfs) : Dfs × ℕ :=
  cmp.all3.foldl (sync3MatchStep ai validations) (dfs, 0)

/-- The per-correspondence body of one `_sync_two_way_matches` bucket. -/
def sync2MatchStep (ai : ValueOracle) (validations : Validations)
    (mp1 mp2 : MP) (get1 get2 : MatchEntry → Option String)
    (acc : Dfs × ℕ) (m : MatchEntry) : Dfs × ℕ :=
  match truthyOpt (get1 m), truthyOpt (get2 m) with
  | some col1, some col2 =>
    if is_excluded_column col1 || is_excluded_column col2 then acc
    else if !((acc.1.get mp1).hasCol col1 && (acc.1.get mp2).hasCol col2) then acc
    else
      let (d, c) := sync_two_columns ai validations acc.1 mp1 mp2 col1 col2
      (d, acc.2 + c)
  | _, _ => acc

/-- One bucket of `_sync_two_way_matches`. -/
def sync_two_way_bucket (ai : ValueOracle) (validations : Validations)
    (mp1 mp2 : MP) (get1 get2 : MatchEntry → Option String)
    (start : Dfs × ℕ) (ms : List MatchEntry) : Dfs × ℕ :=
  ms.foldl (sync2MatchStep ai validations mp1 mp2 get1 get2) start

/-- Embeds `_sync_two_way_matches`: the three pair buckets in source
order. -/
def sync_two_way_matches (ai : ValueOracle) (validations : Validations)
    (cmp : CompResult) (dfs : Dfs) : Dfs × ℕ :=
  let s1 := sync_two_way_bucket ai validations .wb .ozon
    (fun m => m.c1) (fun m => m.c2) (dfs, 0) cmp.m12
  let s2 := sync_two_way_bucket ai validations .wb .yandex
    (fun m => m.c1) (fun m => m.c3) s1 cmp.m13
  sync_two_way_bucket ai validations .ozon .yandex
    (fun m => m.c2) (fun m => m.c3) s2 cmp.m23

/-- Embeds `_sync_all_matches`. -/
def sync_all_matches (ai : ValueOracle) (validations : Validations)
    (cmp : CompResult) (dfs : Dfs) : Dfs :=
  (sync_two_way_matches ai validations cmp
    (sync_three_way_matches ai validations cmp dfs).1).1

/-- One row visit of `_postprocess_wb_dimensions`. -/
def postVisit (col : String) (d : Df) (idx : ℕ) : Df :=
  if cellNotNa (d.getAt idx col) then
    match cellFloat (d.getAt idx col) with
    | some q => if 100 < q then d.setAt idx col (Cell.num (mm_to_cm q)) else d
    | none => d
  else d

/-- One column of `_postprocess_wb_dimensions`: re-convert any numeric
value above 100 from mm to cm. -/
def postprocessCol (df : Df) (col : String) : Df :=
  if !df.hasCol col then df
  else (List.range df.rows.length).foldl (postVisit col) df

/-- Embeds `_postprocess_wb_dimensions`. -/
def postprocess_wb_dimensions (dfs : Dfs) : Dfs :=
  { dfs with
    wb := postprocessCol (postprocessCol (postprocessCol dfs.wb wbLengthCol)
      wbWidthCol) wbHeightCol }

/-- Embeds `synchronize_data` between load and save: align, dimension
sync, three-way pass, two-way pass, WB dimension postprocess. -/
def run_engine (ai : ValueOracle) (validations : Validations)
    (cmp : CompResult) (dfs : Dfs) : Dfs :=
  postprocess_wb_dimensions
    (sync_all_matches ai validations cmp (sync_dimensions (align_articles dfs)).1)

/-! ## Column matching engine: `ai_comparator.py` -/

/-- Embeds `_filter_excluded_columns`: (allowed, excluded), both in input
order. -/
def filter_excluded_columns (columns : List String) : List String × List String :=
  (columns.filter (fun c => !is_excluded_column c),
   columns.filter (fun c => is_excluded_column c))

/-- Embeds `ExcelReader.find_column_fuzzy`: exact hit first, else first
column containing the lowered search term. -/
def find_column_fuzzy (columns : List String) (searchTerm : String) :
    Option String :=
  if searchTerm.isEmpty then none
  else if pyElem searchTerm columns then some searchTerm
  else columns.find? (fun col => pyIn (pyLower searchTerm) (pyLower col))

def mand3Exists (ms : List MatchEntry) (v1 v2 v3 : String) : Bool :=
  ms.any (fun m => m.c1 == some v1 || m.c2 == some v2 || m.c3 == some v3)

def mandPairExists (ms : List MatchEntry)
    (get1 get2 : MatchEntry → Option String) (v1 v2 : String) : Bool :=
  ms.any (fun m => get1 m == some v1 || get2 m == some v2)

/-- The three fuzzy resolutions of one mandatory template (Python's
truthiness applied to the lookup result). -/
def resolve1 (cols1 : List String) (m : MandTemplate) : Option String :=
  truthyOpt (find_column_fuzzy cols1 m.column_1)

def resolve2 (cols2 : List String) (m : MandTemplate) : Option String :=
  truthyOpt (if m.column_2.isEmpty then none else find_column_fuzzy cols2 m.column_2)

def resolve3 (cols3 : List String) (m : MandTemplate) : Option String :=
  truthyOpt (if m.column_3.isEmpty then none else find_column_fuzzy cols3 m.column_3)

/-- One template of `_add_mandatory_matches`. -/
def add_mandatory_step (cols1 cols2 cols3 : List String) (r : CompResult)
    (m : MandTemplate) : CompResult :=
  match resolve1 cols1 m, resolve2 cols2 m, resolve3 cols3 m with
  | some v1, some v2, some v3 =>
    if mand3Exists r.all3 v1 v2 v3 then r
    else { r with all3 :=
      { c1 := some v1, c2 := some v2, c3 := some v3,
        confidence := 1, mandatory := true } :: r.all3 }
  | some v1, some v2, none =>
    if mandPairExists r.m12 (fun e => e.c1) (fun e => e.c2) v1 v2 then r
    else { r with m12 :=
      { c1 := some v1, c2 := some v2, confidence := 1, mandatory := true } :: r.m12 }
  | some v1, none, some v3 =>
    if mandPairExists r.m13 (fun e => e.c1) (fun e => e.c3) v1 v3 then r
    else { r with m13 :=
      { c1 := some v1, c3 := some v3, confidence := 1, mandatory := true } :: r.m13 }
  | none, some v2, some v3 =>
    if mandPairExists r.m23 (fun e => e.c2) (fun e => e.c3) v2 v3 then r
    else { r with m23 :=
      { c2 := some v2, c3 := some v3, confidence := 1, mandatory := true } :: r.m23 }
  | _, _, _ => r

/-- Embeds `_add_mandatory_matches` over the template list. -/
def add_mandatory_matches (r : CompResult) (cols1 cols2 cols3 : List String) :
    CompResult :=
  MANDATORY_MATCHES.foldl (add_mandatory_step cols1 cols2 cols3) r

/-- Embeds `_get_remaining_columns` for one catalog. -/
def remainingColumns (result : CompResult) (cols : List String)
    (get : MatchEntry → Option String) : List String :=
  let matched := (result.all3.filterMap get).filter (fun c => !c.isEmpty)
  cols.filter (fun c => !c.isEmpty && !pyElem c matched)

/-- Embeds `_merge_results`. -/
def merge_results (first second : CompResult) : CompResult :=
  { all3 := first.all3 ++ second.all3
    m12 := first.m12 ++ second.m12
    m13 := first.m13 ++ second.m13
    m23 := first.m23 ++ second.m23
    u1 := second.u1
    u2 := second.u2
    u3 := second.u3 }

/-- Embeds `_add_excluded_to_result`. -/
def add_excluded_to_result (r : CompResult) (e1 e2 e3 : List String) :
    CompResult :=
  { r with u1 := r.u1 ++ e1, u2 := r.u2 ++ e2, u3 := r.u3 ++ e3 }

/-- Embeds `compare_columns`: `oracle1`/`oracle2` are the parsed responses
of the first and (if needed) second Oracle pass. -/
def compare_columns (oracle1 oracle2 : CompResult)
    (cols1 cols2 cols3 : List String) : CompResult :=
  let f1 := (filter_excluded_columns cols1).1
  let e1 := (filter_excluded_columns cols1).2
  let f2 := (filter_excluded_columns cols2).1
  let e2 := (filter_excluded_columns cols2).2
  let f3 := (filter_excluded_columns cols3).1
  let e3 := (filter_excluded_columns cols3).2
  let result := add_mandatory_matches oracle1 f1 f2 f3
  let r1 := remainingColumns result f1 (fun m => m.c1)
  let r2 := remainingColumns result f2 (fun m => m.c2)
  let r3 := remainingColumns result f3 (fun m => m.c3)
  let result :=
    if r1.isEmpty && r2.isEmpty && r3.isEmpty then result
    else merge_results result oracle2
  add_excluded_to_result result e1 e2 e3

/-- The frame property: every non-empty cell of `df` keeps its value in
`df'`. -/
def FrameDf (df df' : Df) : Prop :=
  ∀ idx col, cellNonEmpty (df.getAt idx col) = true →
    df'.getAt idx col = df.getAt idx col

/-- The frame property across the three tables. -/
def Frame (dfs dfs' : Dfs) : Prop :=
  ∀ mp idx col, cellNonEmpty ((dfs.get mp).getAt idx col) = true →
    (dfs'.get mp).getAt idx col = (dfs.get mp).getAt idx col

/-- The cell transformation applied by one `_postprocess_wb_dimensions`
visit. -/
def postStep (v : Cell) : Cell :=
  if cellNotNa v then
    match cellFloat v with
    | some q => if 100 < q then Cell.num (mm_to_cm q) else v
    | none => v
  else v

/-- Excluded columns are never written: agreement on all cells of excluded
columns. -/
def ExclFrame (dfs₀ dfs' : Dfs) : Prop :=
  ∀ mp i c, is_excluded_column c = true →
    (dfs'.get mp).getAt i c = (dfs₀.get mp).getAt i c

/-! ## Lemmas and claim theorems -/

/-! ## Basic lemmas about the string primitives -/
theorem pyElem_iff_mem (v : String) (l : List String) :
    pyElem v l = true ↔ v ∈ l := by
  simp [pyElem, List.any_eq_true, beq_iff_eq]

theorem mem_of_find?_eq_some {p : String → Bool} {l : List String} {a : String}
    (h : l.find? p = some a) : a ∈ l :=
  List.mem_of_find?_eq_some h

/-! ### Membership lemmas for the cascade levels -/
theorem truthyOpt_eq_some {o : Option String} {r : String}
    (h : truthyOpt o = some r) : o = some r := by
  cases o with
  | none => simp [truthyOpt] at h
  | some s =>
    simp only [truthyOpt] at h
    by_cases hs : s.isEmpty <;> simp [hs] at h
    exact congrArg some h

theorem truthyOpt_ne_empty {o : Option String} {r : String}
    (h : truthyOpt o = some r) : ¬r.isEmpty = true := by
  cases o with
  | none => simp [truthyOpt] at h
  | some s =>
    simp only [truthyOpt] at h
    by_cases hs : s.isEmpty <;> simp [hs] at h
    subst h; exact fun hc => hs hc

theorem exactMatch_mem {v : String} {allowed : List String} {r : String}
    (h : exactMatch v allowed = some r) : r ∈ allowed := by
  unfold exactMatch at h
  by_cases he : pyElem v allowed = true
  · simp [he] at h; subst h; exact (pyElem_iff_mem v allowed).mp he
  · simp [he] at h

theorem normalizedMatch_mem {v : String} {allowed : List String} {r : String}
    (h : normalizedMatch v allowed = some r) : r ∈ allowed :=
  List.mem_of_find?_eq_some h

theorem numberMatch_mem {v : String} {allowed : List String} {r : String}
    (h : numberMatch v allowed = some r) : r ∈ allowed := by
  unfold numberMatch at h
  cases hn : extractNumber v with
  | none => rw [hn] at h; exact absurd h (by simp)
  | some number =>
    rw [hn] at h
    by_cases he : pyElem number allowed = true
    · simp [he] at h; subst h; exact (pyElem_iff_mem _ allowed).mp he
    · simp [he] at h; exact List.mem_of_find?_eq_some h

theorem partialMatch_mem {v : String} {allowed : List String} {r : String}
    (h : partialMatch v allowed = some r) : r ∈ allowed :=
  List.mem_of_find?_eq_some h

theorem matchValueWithList_mem {oracle : Option String} {v : String}
    {allowed : List String} {r : String}
    (h : matchValueWithList oracle v allowed = some r) : r ∈ allowed := by
  unfold matchValueWithList at h
  by_cases hg : (v.isEmpty || allowed.isEmpty) = true
  · simp [hg] at h
  · simp only [hg, if_false] at h
    cases h1 : allowed.find? (fun a => vNormalize a == vNormalize v) with
    | some a => rw [h1] at h; cases h; exact List.mem_of_find?_eq_some h1
    | none =>
      rw [h1] at h
      cases h2 : allowed.find?
          (fun a => subsetWords (pyWords (vNormalize v)) (pyWords (vNormalize a))) with
      | some a => rw [h2] at h; cases h; exact List.mem_of_find?_eq_some h2
      | none =>
        rw [h2] at h
        cases oracle with
        | none => exact absurd h (by simp)
        | some resp =>
          simp only at h
          by_cases he : pyElem (pyStrip resp) allowed = true
          · simp [he] at h; subst h; exact (pyElem_iff_mem _ allowed).mp he
          · simp only [he, if_false] at h
            cases h3 : allowed.find?
                (fun a => vNormalize (pyStrip resp) == vNormalize a) with
            | some a => rw [h3] at h; cases h; exact List.mem_of_find?_eq_some h3
            | none => rw [h3] at h; exact absurd h (by simp)

/-- Any non-`none` result of the full cascade is an element of the
allow-list. -/
theorem validate_value_mem {ai : ValueOracle} {value : String}
    {allowed : List String} {r : String}
    (h : validate_value ai value allowed = some r) : r ∈ allowed := by
  unfold validate_value at h
  by_cases hemp : allowed.isEmpty = true
  · simp [hemp] at h
  · simp only [hemp, if_false] at h
    cases h1 : truthyOpt (exactMatch (pyStrip value) allowed) with
    | some a => rw [h1] at h; cases h; exact exactMatch_mem (truthyOpt_eq_some h1)
    | none =>
    rw [h1] at h
    cases h2 : truthyOpt (normalizedMatch (pyStrip value) allowed) with
    | some a => rw [h2] at h; cases h; exact normalizedMatch_mem (truthyOpt_eq_some h2)
    | none =>
    rw [h2] at h
    cases h3 : truthyOpt (numberMatch (pyStrip value) allowed) with
    | some a => rw [h3] at h; cases h; exact numberMatch_mem (truthyOpt_eq_some h3)
    | none =>
    rw [h3] at h
    cases h4 : truthyOpt (partialMatch (pyStrip value) allowed) with
    | some a => rw [h4] at h; cases h; exact partialMatch_mem (truthyOpt_eq_some h4)
    | none =>
    rw [h4] at h
    cases ai with
    | none => exact absurd h (by simp)
    | some oracle =>
      simp only at h
      exact matchValueWithList_mem (truthyOpt_eq_some h)

/-- The cascade never returns the empty string. -/
theorem validate_value_ne_empty {ai : ValueOracle} {value : String}
    {allowed : List String} {r : String}
    (h : validate_value ai value allowed = some r) : ¬r.isEmpty = true := by
  unfold validate_value at h
  by_cases hemp : allowed.isEmpty = true
  · simp [hemp] at h
  · simp only [hemp, if_false] at h
    cases h1 : truthyOpt (exactMatch (pyStrip value) allowed) with
    | some a => rw [h1] at h; cases h; exact truthyOpt_ne_empty h1
    | none =>
    rw [h1] at h
    cases h2 : truthyOpt (normalizedMatch (pyStrip value) allowed) with
    | some a => rw [h2] at h; cases h; exact truthyOpt_ne_empty h2
    | none =>
    rw [h2] at h
    cases h3 : truthyOpt (numberMatch (pyStrip value) allowed) with
    | some a => rw [h3] at h; cases h; exact truthyOpt_ne_empty h3
    | none =>
    rw [h3] at h
    cases h4 : truthyOpt (partialMatch (pyStrip value) allowed) with
    | some a => rw [h4] at h; cases h; exact truthyOpt_ne_empty h4
    | none =>
    rw [h4] at h
    cases ai with
    | none => exact absurd h (by simp)
    | some oracle =>
      simp only at h
      exact truthyOpt_ne_empty h

/-- With an empty allow-list the cascade yields nothing. -/
theorem validate_value_nil {ai : ValueOracle} {value : String} :
    validate_value ai value [] = none := by
  simp [validate_value]

theorem toNat_ofNat_of_lt {n : ℕ} (h : n < 55296) : (Char.ofNat n).toNat = n := by
  rw [Char.ofNat, dif_pos (Or.inl h)]
  rfl

theorem digitsToNat_append (l : List Char) (c : Char) :
    digitsToNat (l ++ [c]) = 10 * digitsToNat l + (c.toNat - 48) := by
  simp [digitsToNat, List.foldl_append]

theorem natDigitsAux_fuel {f g n : ℕ} (hf : n < f) (hg : n < g) :
    natDigitsAux f n = natDigitsAux g n := by
  induction f generalizing g n with
  | zero => omega
  | succ f ih =>
    cases g with
    | zero => omega
    | succ g =>
      rw [natDigitsAux, natDigitsAux]
      by_cases h : n < 10
      · simp [h]
      · rw [if_neg h, if_neg h]
        have hd : n / 10 < n := Nat.div_lt_self (by omega) (by omega)
        rw [@ih g (n / 10) (by omega) (by omega)]

theorem natDigits_unfold (n : ℕ) :
    natDigits n = if n < 10 then [Char.ofNat (48 + n)]
      else natDigits (n / 10) ++ [Char.ofNat (48 + n % 10)] := by
  unfold natDigits
  rw [natDigitsAux]
  by_cases h : n < 10
  · simp [h]
  · rw [if_neg h, if_neg h]
    have hd : n / 10 < n := Nat.div_lt_self (by omega) (by omega)
    rw [natDigitsAux_fuel (show n / 10 < n from hd) (Nat.lt_succ_self _)]

theorem digitsToNat_natDigits (n : ℕ) : digitsToNat (natDigits n) = n := by
  induction n using Nat.strong_induction_on with
  | _ n ih =>
    rw [natDigits_unfold]
    by_cases h : n < 10
    · simp only [h, if_pos]
      have hv : 48 + n < 55296 := by omega
      simp [digitsToNat, toNat_ofNat_of_lt hv]
    · rw [if_neg h]
      rw [digitsToNat_append]
      have hv : 48 + n % 10 < 55296 := by
        have := Nat.mod_lt n (show 0 < 10 by omega); omega
      rw [toNat_ofNat_of_lt hv]
      rw [show digitsToNat (natDigits (n / 10)) = n / 10 from
        ih (n / 10) (Nat.div_lt_self (by omega) (by omega))]
      omega

theorem isDigit_ofNat_digit {n : ℕ} (h48 : 48 ≤ n) (h57 : n ≤ 57) :
    (Char.ofNat n).isDigit = true := by
  have hv : n < 55296 := by omega
  rw [Char.ofNat, dif_pos (Or.inl hv)]
  simp only [Char.isDigit, Char.ofNatAux, Bool.and_eq_true, decide_eq_true_eq]
  constructor
  · exact UInt32.le_def.mpr (by simpa [UInt32.toNat, BitVec.ofNatLt] using h48)
  · exact UInt32.le_def.mpr (by simpa [UInt32.toNat, BitVec.ofNatLt] using h57)

theorem natDigits_all_digit (n : ℕ) :
    ∀ c ∈ natDigits n, c.isDigit = true := by
  induction n using Nat.strong_induction_on with
  | _ n ih =>
    rw [natDigits_unfold]
    by_cases h : n < 10
    · simp only [h, if_pos, List.mem_singleton]
      rintro c rfl
      exact isDigit_ofNat_digit (by omega) (by omega)
    · rw [if_neg h]
      intro c hc
      rcases List.mem_append.mp hc with hc | hc
      · exact ih (n / 10) (Nat.div_lt_self (by omega) (by omega)) c hc
      · rcases List.mem_singleton.mp hc with rfl
        have := Nat.mod_lt n (show 0 < 10 by omega)
        exact isDigit_ofNat_digit (by omega) (by omega)

theorem isDigit_toNat {c : Char} (h : c.isDigit = true) :
    48 ≤ c.toNat ∧ c.toNat ≤ 57 := by
  simp only [Char.isDigit, Bool.and_eq_true, decide_eq_true_eq] at h
  exact ⟨UInt32.le_def.mp h.1, UInt32.le_def.mp h.2⟩

theorem digit_not_whitespace {c : Char} (h : c.isDigit = true) :
    c.isWhitespace = false := by
  have := isDigit_toNat h
  simp only [Char.isWhitespace, Bool.or_eq_false_iff, decide_eq_false_iff_not]
  refine ⟨⟨⟨?_, ?_⟩, ?_⟩, ?_⟩ <;>
    (intro hc; rw [show c = _ from hc] at this; exact absurd this (by decide))

theorem digit_ne {c d : Char} (h : c.isDigit = true)
    (hd : d.toNat < 48 ∨ 57 < d.toNat) : c ≠ d := by
  have := isDigit_toNat h
  intro hc; subst hc; omega

theorem validatePartsLoop_eq_mapM (ai : ValueOracle) (allowed : List String)
    (ps : List String) :
    validatePartsLoop ai allowed ps =
      ps.mapM (fun p => validate_value ai p allowed) := by
  induction ps with
  | nil => rfl
  | cons p ps ih =>
    rw [validatePartsLoop, List.mapM_cons]
    cases hv : validate_value ai p allowed with
    | none => simp [truthyOpt, hv]
    | some v =>
      have hne := validate_value_ne_empty hv
      simp only [hv, truthyOpt]
      rw [if_neg hne, ih]
      cases ps.mapM (fun p => validate_value ai p allowed) <;> rfl

theorem mapM_eq_none_of_mem {f : String → Option String} {ps : List String}
    {p : String} (hp : p ∈ ps) (hf : f p = none) : ps.mapM f = none := by
  induction ps with
  | nil => cases hp
  | cons q ps ih =>
    rw [List.mapM_cons]
    rcases List.mem_cons.mp hp with rfl | hp'
    · rw [hf]; rfl
    · cases hq : f q with
      | none => rfl
      | some v =>
        have hm := ih hp'
        simp only [Option.bind_eq_bind, Option.some_bind]
        rw [hm]
        rfl

/-- C10: whenever the five-level validation cascade returns a result for a
non-empty allow-list, that result is verbatim an element of the
allow-list; the Semantic-Oracle level on its own likewise only ever
returns allow-list entries. -/
theorem cascade_result_mem_allowlist (ai : ValueOracle) (value : String)
    (allowed : List String) (_hne : allowed ≠ []) :
    (∀ r, validate_value ai value allowed = some r → r ∈ allowed) ∧
    (∀ oracle r, matchValueWithList oracle value allowed = some r → r ∈ allowed) :=
  ⟨fun _ h => validate_value_mem h, fun _ _ h => matchValueWithList_mem h⟩

theorem cascade_result_mem_allowlist_witness :
    (["Закаленное стекло"] : List String) ≠ [] ∧
      "Закаленное стекло" ∈ (["Закаленное стекло"] : List String) :=
  ⟨by decide,
    (cascade_result_mem_allowlist none "закалённое стекло" ["Закаленное стекло"]
      (by decide)).1 "Закаленное стекло" (by decide)⟩

/-- C5: on a semicolon-separated value with a non-empty allow-list, every
non-blank part is validated independently through the cascade; one failing
part rejects the whole field, and on success wildberries keeps only the
first validated part while ozon and yandex re-join all validated parts
with their separators `"; "` and `", "`. -/
theorem multi_value_cascade (ai : ValueOracle) (mp : MP) (value : Cell)
    (allowed : List String) (_hne : allowed ≠ [])
    (htr : cellTruthy value = true)
    (hsemi : pyIn ";" (pyStrip (cellStr value)) = true)
    (hparts : ((pySplitChar (pyStrip (cellStr value)) ';').map pyStrip).filter
      (fun p => !p.isEmpty) ≠ []) :
    (∀ p ∈ ((pySplitChar (pyStrip (cellStr value)) ';').map pyStrip).filter
        (fun p => !p.isEmpty),
      validate_value ai p allowed = none →
      validate_multiple_values ai mp value allowed = none) ∧
    (∀ vs, (((pySplitChar (pyStrip (cellStr value)) ';').map pyStrip).filter
        (fun p => !p.isEmpty)).mapM (fun p => validate_value ai p allowed) = some vs →
      validate_multiple_values ai mp value allowed =
        match mp with
        | .wb => some (vs.headD "")
        | .ozon => some (pyJoin "; " vs)
        | .yandex => some (pyJoin ", " vs)) := by
  constructor
  · intro p hp hfail
    unfold validate_multiple_values
    rw [if_neg (by simp [htr]), if_neg (by simp [hsemi])]
    simp only [validatePartsLoop_eq_mapM]
    rw [mapM_eq_none_of_mem hp hfail]
  · intro vs hvs
    unfold validate_multiple_values
    rw [if_neg (by simp [htr]), if_neg (by simp [hsemi])]
    simp only [validatePartsLoop_eq_mapM]
    rw [hvs]
    have hvs_ne : vs ≠ [] := by
      rcases hne_parts : ((pySplitChar (pyStrip (cellStr value)) ';').map
          pyStrip).filter (fun p => !p.isEmpty) with _ | ⟨p, ps⟩
      · exact absurd hne_parts hparts
      · rw [hne_parts, List.mapM_cons] at hvs
        cases hv : validate_value ai p allowed with
        | none => rw [hv] at hvs; exact absurd hvs (by simp)
        | some v =>
          rw [hv] at hvs
          simp only [Option.bind_eq_bind, Option.some_bind] at hvs
          cases hm : ps.mapM (fun p => validate_value ai p allowed) with
          | none => rw [hm] at hvs; exact absurd hvs (by simp)
          | some ws =>
            rw [hm] at hvs
            simp only [Option.some_bind] at hvs
            cases hvs
            simp
    have hvempty : vs.isEmpty = false := by simp [hvs_ne]
    cases mp <;> simp [hvempty, VALUE_SEPARATORS, pyJoin] <;> decide

theorem multi_value_cascade_witness :
    validate_multiple_values none MP.ozon (Cell.str "a; b") ["a", "b"] =
      some "a; b" := by
  have h := (multi_value_cascade none MP.ozon (Cell.str "a; b") ["a", "b"]
    (by decide) (by decide) (by decide) (by decide)).2 ["a", "b"] (by decide)
  simpa using h

/-! ### Composite parse/format round trip (C6) -/

theorem dropWhile_eq_self_of_none {p : Char → Bool} {l : List Char}
    (h : ∀ c ∈ l, p c = false) : l.dropWhile p = l := by
  cases l with
  | nil => rfl
  | cons c cs => exact List.dropWhile_cons_of_neg (by simp [h c (by simp)])

theorem pyStrip_eq_self_of_no_ws {l : List Char}
    (h : ∀ c ∈ l, c.isWhitespace = false) : pyStrip ⟨l⟩ = ⟨l⟩ := by
  unfold pyStrip
  rw [dropWhile_eq_self_of_none h,
    dropWhile_eq_self_of_none (fun c hc => h c (List.mem_reverse.mp hc)),
    List.reverse_reverse]

theorem splitCharAux_no_sep {sep : Char} {l : List Char} (acc : List Char)
    (h : ∀ c ∈ l, c ≠ sep) :
    splitCharAux sep l acc = [⟨acc.reverse ++ l⟩] := by
  induction l generalizing acc with
  | nil => simp [splitCharAux]
  | cons c cs ih =>
    rw [splitCharAux, if_neg (h c (by simp))]
    rw [ih (c :: acc) (fun d hd => h d (by simp [hd]))]
    simp

theorem splitCharAux_sep {sep : Char} {l rest : List Char} (acc : List Char)
    (h : ∀ c ∈ l, c ≠ sep) :
    splitCharAux sep (l ++ sep :: rest) acc =
      (⟨acc.reverse ++ l⟩ : String) :: splitCharAux sep rest [] := by
  induction l generalizing acc with
  | nil => simp [splitCharAux]
  | cons c cs ih =>
    rw [List.cons_append, splitCharAux, if_neg (h c (by simp))]
    rw [ih (c :: acc) (fun d hd => h d (by simp [hd]))]
    simp

theorem digit_ne_slash {c : Char} (h : c.isDigit = true) : c ≠ '/' :=
  digit_ne h (by decide)

theorem digit_ne_dot {c : Char} (h : c.isDigit = true) : c ≠ '.' :=
  digit_ne h (by decide)

theorem parseUnsignedFloat_digits {l : List Char} (hne : l ≠ [])
    (hd : ∀ c ∈ l, c.isDigit = true) :
    parseUnsignedFloat l = some ((digitsToNat l : ℕ) : ℚ) := by
  unfold parseUnsignedFloat
  rw [show splitCharAux '.' l [] = [⟨l⟩] from
    splitCharAux_no_sep [] (fun c hc => digit_ne_dot (hd c hc))]
  show (if ((⟨l⟩ : String).data.isEmpty || !(⟨l⟩ : String).data.all Char.isDigit) = true
      then none else some ((digitsToNat (⟨l⟩ : String).data : ℕ) : ℚ)) = _
  have h1 : (⟨l⟩ : String).data = l := rfl
  rw [h1, if_neg]
  intro hcon
  rcases Bool.or_eq_true_iff.mp hcon with hc | hc
  · exact hne (by simpa [List.isEmpty_iff] using hc)
  · simp only [Bool.not_eq_true', List.all_eq_false] at hc
    obtain ⟨c, hc1, hc2⟩ := hc
    exact absurd (hd c hc1) (by simp [hc2])

theorem natDigits_ne_nil (n : ℕ) : natDigits n ≠ [] := by
  rw [natDigits_unfold]
  by_cases h : n < 10 <;> simp [h]

theorem natDigits_head_digit (n : ℕ) : ∀ c ∈ natDigits n, c.isDigit = true :=
  natDigits_all_digit n

theorem parsePyFloat_natStr (n : ℕ) : parsePyFloat (natStr n) = some (n : ℚ) := by
  have hd := natDigits_all_digit n
  have hs : pyStrip ⟨natDigits n⟩ = ⟨natDigits n⟩ :=
    pyStrip_eq_self_of_no_ws
      (fun c hc => digit_not_whitespace (hd c hc))
  have hu : parseUnsignedFloat (natDigits n) =
      some ((digitsToNat (natDigits n) : ℕ) : ℚ) :=
    parseUnsignedFloat_digits (natDigits_ne_nil n) hd
  unfold parsePyFloat natStr
  rw [hs]
  have hdata : (⟨natDigits n⟩ : String).data = natDigits n := rfl
  split
  · rename_i rest heq
    rw [hdata] at heq
    have : ('-' : Char).isDigit = true := hd '-' (by rw [heq]; exact List.mem_cons_self _ _)
    exact absurd this (by decide)
  · rename_i rest heq
    rw [hdata] at heq
    have : ('+' : Char).isDigit = true := hd '+' (by rw [heq]; exact List.mem_cons_self _ _)
    exact absurd this (by decide)
  · rw [hdata, hu, digitsToNat_natDigits]

theorem pyStrip_eq_self {s : String}
    (h : ∀ ch ∈ s.data, ch.isWhitespace = false) : pyStrip s = s := by
  have := pyStrip_eq_self_of_no_ws h
  exact this

theorem pyRound_natCast (n : ℕ) : pyRound (n : ℚ) = (n : ℤ) := by
  unfold pyRound
  rw [Int.floor_natCast]
  norm_num

theorem intStr_natCast (n : ℕ) : intStr (n : ℤ) = natStr n := by
  unfold intStr
  rw [if_neg (by omega)]
  simp

theorem smart_format_natCast (n : ℕ) : smart_format (n : ℚ) = natStr n := by
  unfold smart_format
  rw [pyRound_natCast]
  rw [if_pos (by push_cast; norm_num)]
  exact intStr_natCast n

theorem composite_string_data (a b c : ℕ) :
    (natStr a ++ "/" ++ natStr b ++ "/" ++ natStr c).data =
      natDigits a ++ '/' :: (natDigits b ++ '/' :: natDigits c) := by
  simp only [String.data_append, natStr]
  simp [List.append_assoc]

theorem composite_string_split (a b c : ℕ) :
    pySplitChar (natStr a ++ "/" ++ natStr b ++ "/" ++ natStr c) '/' =
      [natStr a, natStr b, natStr c] := by
  unfold pySplitChar
  rw [composite_string_data]
  rw [splitCharAux_sep [] (fun d hd => digit_ne_slash (natDigits_all_digit a d hd))]
  rw [splitCharAux_sep [] (fun d hd => digit_ne_slash (natDigits_all_digit b d hd))]
  rw [splitCharAux_no_sep [] (fun d hd => digit_ne_slash (natDigits_all_digit c d hd))]
  simp [natStr]

theorem composite_string_no_ws (a b c : ℕ) :
    ∀ ch ∈ (natStr a ++ "/" ++ natStr b ++ "/" ++ natStr c).data,
      ch.isWhitespace = false := by
  rw [composite_string_data]
  intro ch hch
  rcases List.mem_append.mp hch with h | h
  · exact digit_not_whitespace (natDigits_all_digit a ch h)
  · rcases List.mem_cons.mp h with rfl | h
    · decide
    · rcases List.mem_append.mp h with h | h
      · exact digit_not_whitespace (natDigits_all_digit b ch h)
      · rcases List.mem_cons.mp h with rfl | h
        · decide
        · exact digit_not_whitespace (natDigits_all_digit c ch h)

/-- C6: parsing a canonical "L/W/H" string with positive integer
components yields exactly those three values, and re-formatting the parse
result reproduces the string verbatim. -/
theorem composite_parse_format_roundtrip (a b c : ℕ)
    (ha : 0 < a) (hb : 0 < b) (hc : 0 < c) :
    parse_composite_dimensions
        (Cell.str (natStr a ++ "/" ++ natStr b ++ "/" ++ natStr c)) =
      some ⟨(a : ℚ), (b : ℚ), (c : ℚ)⟩ ∧
    (parse_composite_dimensions
        (Cell.str (natStr a ++ "/" ++ natStr b ++ "/" ++ natStr c))).map
        (fun d => format_composite_dimensions d.length d.width d.height) =
      some (natStr a ++ "/" ++ natStr b ++ "/" ++ natStr c) := by
  set s := natStr a ++ "/" ++ natStr b ++ "/" ++ natStr c with hsdef
  have hstrip : pyStrip s = s := pyStrip_eq_self (composite_string_no_ws a b c)
  have hparse : parse_composite_dimensions (Cell.str s) =
      some ⟨(a : ℚ), (b : ℚ), (c : ℚ)⟩ := by
    unfold parse_composite_dimensions
    have hcell : cellStr (Cell.str s) = s := rfl
    rw [hcell, hstrip]
    have hne : s.data ≠ [] := by
      rw [hsdef, composite_string_data]
      intro h
      exact natDigits_ne_nil a (List.append_eq_nil.mp h).1
    have h1 : decide (Cell.str s = Cell.na) = false := by simp
    have h2 : s.isEmpty = false := by
      rw [Bool.eq_false_iff]
      intro h
      exact hne (congrArg String.data ((String.isEmpty_iff s).mp h))
    rw [if_neg (by simp [h1, h2])]
    have hsplit : pySplitChar s '/' = [natStr a, natStr b, natStr c] := by
      rw [hsdef]; exact composite_string_split a b c
    rw [hsplit]
    show (match parsePyFloat (natStr a), parsePyFloat (natStr b),
        parsePyFloat (natStr c) with
      | some l, some w, some h =>
        if 0 < l ∧ 0 < w ∧ 0 < h then some (⟨l, w, h⟩ : Dims) else none
      | _, _, _ => none) = _
    rw [parsePyFloat_natStr a, parsePyFloat_natStr b, parsePyFloat_natStr c]
    show (if 0 < (a : ℚ) ∧ 0 < (b : ℚ) ∧ 0 < (c : ℚ) then _ else none) = _
    rw [if_pos ⟨by exact_mod_cast ha, by exact_mod_cast hb, by exact_mod_cast hc⟩]
  refine ⟨hparse, ?_⟩
  rw [hparse]
  simp only [Option.map_some']
  unfold format_composite_dimensions
  rw [smart_format_natCast, smart_format_natCast, smart_format_natCast]

theorem composite_parse_format_roundtrip_witness :
    (0 : ℕ) < 71 ∧
      (parse_composite_dimensions (Cell.str "71/68/197")).map
        (fun d => format_composite_dimensions d.length d.width d.height) =
      some "71/68/197" := by
  have h := (composite_parse_format_roundtrip 71 68 197
    (by decide) (by decide) (by decide)).2
  have hs : natStr 71 ++ "/" ++ natStr 68 ++ "/" ++ natStr 197 = "71/68/197" := by
    decide
  rw [hs] at h
  exact ⟨by decide, h⟩

/-! ### Identifier cleaning boundary (C8) -/

/-- C8 counterexample: a 50-character identifier with no guidance keywords
is non-empty and, per the claim, "not longer than 50" — yet the cleaning
drops it (the code keeps only lengths strictly below 50). -/
theorem clean_articles_len50_counterexample :
    ("AAAAAAAAAAAAAAAAAAAAAAAAAAAAAAAAAAAAAAAAAAAAAAAAAA" : String).length = 50 ∧
    hasGuidanceKw "AAAAAAAAAAAAAAAAAAAAAAAAAAAAAAAAAAAAAAAAAAAAAAAAAA" = false ∧
    ("AAAAAAAAAAAAAAAAAAAAAAAAAAAAAAAAAAAAAAAAAAAAAAAAAA" : String) ≠ "" ∧
    cleanArticles [Cell.str "AAAAAAAAAAAAAAAAAAAAAAAAAAAAAAAAAAAAAAAAAAAAAAAAAA"] = [] := by
  refine ⟨by decide, by decide, by decide, by decide⟩

/-- C8 (amended): a non-missing identifier whose stripped value is
non-blank and keyword-free survives the cleaning of the Row Aligner
exactly when its stripped length is strictly below 50 characters. -/
theorem clean_articles_keeps_iff (cells : List Cell) (c : Cell)
    (hc : c ∈ cells) (hna : cellNotNa c = true)
    (hne : (pyStrip (cellStr c)).isEmpty = false)
    (hkw : hasGuidanceKw (pyStrip (cellStr c)) = false) :
    pyStrip (cellStr c) ∈ cleanArticles cells ↔
      (pyStrip (cellStr c)).length < 50 := by
  unfold cleanArticles
  constructor
  · intro h
    have h1 := (List.mem_filter.mp h).2
    simpa using h1
  · intro hlen
    refine List.mem_filter.mpr ⟨?_, by simpa using hlen⟩
    refine List.mem_filter.mpr ⟨?_, by simp [hkw]⟩
    refine List.mem_filter.mpr ⟨?_, by simp [hne]⟩
    exact List.mem_map.mpr ⟨c, List.mem_filter.mpr ⟨hc, hna⟩, rfl⟩

theorem clean_articles_keeps_iff_witness :
    "abc" ∈ cleanArticles [Cell.str "abc"] := by
  have h := (clean_articles_keeps_iff [Cell.str "abc"] (Cell.str "abc")
    (by decide) (by decide) (by decide) (by decide)).mpr (by decide)
  simpa using h

/-! ### Fill decision logic (C4) -/

theorem validate_multiple_nil (ai : ValueOracle) (mp : MP) (value : Cell) :
    validate_multiple_values ai mp value [] = none := by
  unfold validate_multiple_values
  by_cases ht : cellTruthy value = true
  · rw [if_neg (by simp [ht])]
    by_cases hsemi : pyIn ";" (pyStrip (cellStr value)) = true
    · simp only [hsemi, Bool.not_true, if_neg]
      rcases hp : ((pySplitChar (pyStrip (cellStr value)) ';').map pyStrip).filter
          (fun p => !p.isEmpty) with _ | ⟨p, ps⟩ <;>
        simp [validatePartsLoop, hp, validate_value_nil, truthyOpt]
    · simp only [Bool.not_eq_true] at hsemi
      simp [hsemi, validate_value_nil]
  · simp only [Bool.not_eq_true] at ht
    simp [ht]

theorem validatePartsLoop_ne_empty {ai : ValueOracle} {allowed : List String}
    {ps : List String} {vs : List String}
    (h : validatePartsLoop ai allowed ps = some vs) :
    ∀ v ∈ vs, v.isEmpty = false := by
  induction ps generalizing vs with
  | nil =>
    rw [validatePartsLoop] at h
    cases h
    intro v hv
    cases hv
  | cons p ps ih =>
    rw [validatePartsLoop] at h
    cases ht : truthyOpt (validate_value ai p allowed) with
    | none => rw [ht] at h; exact absurd h (by simp)
    | some v0 =>
      rw [ht] at h
      cases hl : validatePartsLoop ai allowed ps with
      | none => rw [hl] at h; exact absurd h (by simp)
      | some ws =>
        rw [hl] at h
        simp only [Option.map_some'] at h
        cases h
        intro v hv
        rcases List.mem_cons.mp hv with rfl | hv'
        · exact Bool.not_eq_true _ ▸ (by
            have := truthyOpt_ne_empty ht
            simpa using this)
        · exact ih hl v hv'

theorem append_isEmpty_false_left {a b : String} (h : a.isEmpty = false) :
    (a ++ b).isEmpty = false := by
  rw [Bool.eq_false_iff] at h ⊢
  intro hc
  apply h
  have hdata : a.data ++ b.data = [] :=
    congrArg String.data ((String.isEmpty_iff _).mp hc)
  have ha : a.data = [] := (List.append_eq_nil.mp hdata).1
  rw [String.isEmpty_iff]
  cases a with
  | mk d =>
    simp only at ha
    subst ha
    rfl

theorem pyJoin_ne_empty {sep : String} {vs : List String} (hne : vs ≠ [])
    (h : ∀ v ∈ vs, v.isEmpty = false) : (pyJoin sep vs).isEmpty = false := by
  cases vs with
  | nil => exact absurd rfl hne
  | cons v ws =>
    cases ws with
    | nil => exact h v (by simp)
    | cons w ws' =>
      show (v ++ sep ++ pyJoin sep (w :: ws')).isEmpty = false
      exact append_isEmpty_false_left
        (append_isEmpty_false_left (h v (by simp)))

theorem validate_multiple_ne_empty {ai : ValueOracle} {mp : MP} {value : Cell}
    {allowed : List String} {v : String}
    (h : validate_multiple_values ai mp value allowed = some v) :
    v.isEmpty = false := by
  unfold validate_multiple_values at h
  by_cases ht : cellTruthy value = true
  · rw [if_neg (by simp [ht])] at h
    by_cases hsemi : pyIn ";" (pyStrip (cellStr value)) = true
    · rw [if_neg (by simp [hsemi])] at h
      cases hl : validatePartsLoop ai allowed
          (((pySplitChar (pyStrip (cellStr value)) ';').map pyStrip).filter
            (fun p => !p.isEmpty)) with
      | none => rw [hl] at h; exact absurd h (by simp)
      | some vs =>
        rw [hl] at h
        have hall := validatePartsLoop_ne_empty hl
        by_cases hvs : vs.isEmpty = true
        · simp [hvs] at h
        · have hvsne : vs ≠ [] := by
            intro hc; rw [hc] at hvs; exact hvs rfl
          cases mp with
          | wb =>
            simp only [Bool.not_eq_true] at hvs
            simp only [hvs, Bool.false_eq_true, if_false] at h
            cases h
            rcases vs with _ | ⟨v0, vs'⟩
            · exact absurd rfl hvsne
            · exact hall v0 (by simp)
          | ozon =>
            simp only [Bool.not_eq_true] at hvs
            simp only [hvs, Bool.false_eq_true, if_false, VALUE_SEPARATORS] at h
            rw [if_neg (by decide)] at h
            cases h
            exact pyJoin_ne_empty hvsne hall
          | yandex =>
            simp only [Bool.not_eq_true] at hvs
            simp only [hvs, Bool.false_eq_true, if_false, VALUE_SEPARATORS] at h
            rw [if_neg (by decide)] at h
            cases h
            exact pyJoin_ne_empty hvsne hall
    · simp only [Bool.not_eq_true] at hsemi
      rw [if_pos (by simp [hsemi])] at h
      exact Bool.eq_false_iff.mpr (validate_value_ne_empty h)
  · simp only [Bool.not_eq_true] at ht
    rw [ht] at h
    exact absurd h (by simp)

/-- C4: when propagation reaches an empty target cell whose row is indexed,
(a) a cascade-validated value is written verbatim; (b) with no allow-list
the cascade yields nothing and the converted raw value is written as-is;
(c) with a non-empty allow-list and no validated value, nothing is written
and the cell stays as it was (the run continues). -/
theorem fill_marketplace_value_branches (ai : ValueOracle)
    (validations : Validations) (df : Df) (article col : String)
    (sourceValue : Cell) (srcU tgtU : Option MUnit) (mp : MP)
    (dataMap : List (String × ℕ × Cell)) (currentValue : Cell)
    (idx : ℕ) (cv : Cell)
    (hcur : cellNonEmpty currentValue = false)
    (hmap : dictGet? dataMap article = some (idx, cv)) :
    (∀ v, validate_multiple_values ai mp (convert_value sourceValue srcU tgtU)
        (validations mp col) = some v →
      fill_marketplace_value ai validations df article col sourceValue srcU
        tgtU mp dataMap currentValue = (df.setAt idx col (Cell.str v), 1)) ∧
    (validations mp col = [] →
      validate_multiple_values ai mp (convert_value sourceValue srcU tgtU)
        (validations mp col) = none ∧
      fill_marketplace_value ai validations df article col sourceValue srcU
        tgtU mp dataMap currentValue =
        (df.setAt idx col (convert_value sourceValue srcU tgtU), 1)) ∧
    (validations mp col ≠ [] →
      validate_multiple_values ai mp (convert_value sourceValue srcU tgtU)
        (validations mp col) = none →
      fill_marketplace_value ai validations df article col sourceValue srcU
        tgtU mp dataMap currentValue = (df, 0)) := by
  refine ⟨?_, ?_, ?_⟩
  · intro v hv
    have hne := validate_multiple_ne_empty hv
    simp [fill_marketplace_value, hcur, hmap, hv, truthyOpt, hne]
  · intro hnil
    have hv : validate_multiple_values ai mp (convert_value sourceValue srcU tgtU)
        (validations mp col) = none := by
      rw [hnil]; exact validate_multiple_nil ai mp _
    refine ⟨hv, ?_⟩
    have hempty : (validations mp col).isEmpty = true := by simp [hnil]
    simp [fill_marketplace_value, hcur, hmap, hv, truthyOpt, hempty]
  · intro hne hv
    have hempty : (validations mp col).isEmpty = false := by simp [hne]
    simp [fill_marketplace_value, hcur, hmap, hv, truthyOpt, hempty]

theorem fill_marketplace_value_branches_witness :
    fill_marketplace_value none (fun _ _ => []) ⟨["Колонка"], [[("Колонка", Cell.na)]]⟩
        "A" "Колонка" (Cell.str "Red") none none MP.ozon
        [("A", (0, Cell.na))] Cell.na =
      ((⟨["Колонка"], [[("Колонка", Cell.na)]]⟩ : Df).setAt 0 "Колонка"
        (convert_value (Cell.str "Red") none none), 1) :=
  ((fill_marketplace_value_branches none (fun _ _ => [])
      ⟨["Колонка"], [[("Колонка", Cell.na)]]⟩ "A" "Колонка" (Cell.str "Red")
      none none MP.ozon [("A", (0, Cell.na))] Cell.na 0 Cell.na
      (by decide) (by decide)).2.1 rfl).2

/-! ### Mandatory-match injection (C9) -/

/-- C9: a template whose labels fuzzy-resolve for exactly the catalogs of a
three-way (or two-way) match, with none of the resolved labels already used
in that bucket, is inserted at the front of the bucket with confidence 1.0
and the mandatory flag; any other template leaves the result unchanged. -/
theorem mandatory_injection (cols1 cols2 cols3 : List String) (r : CompResult)
    (m : MandTemplate) :
    (∀ v1 v2 v3, resolve1 cols1 m = some v1 → resolve2 cols2 m = some v2 →
      resolve3 cols3 m = some v3 →
      (mand3Exists r.all3 v1 v2 v3 = false →
        add_mandatory_step cols1 cols2 cols3 r m =
          { r with all3 :=
            (⟨some v1, some v2, some v3, 1, true⟩ : MatchEntry) :: r.all3 }) ∧
      (mand3Exists r.all3 v1 v2 v3 = true →
        add_mandatory_step cols1 cols2 cols3 r m = r)) ∧
    (∀ v1 v2, resolve1 cols1 m = some v1 → resolve2 cols2 m = some v2 →
      resolve3 cols3 m = none →
      (mandPairExists r.m12 (fun e => e.c1) (fun e => e.c2) v1 v2 = false →
        add_mandatory_step cols1 cols2 cols3 r m =
          { r with m12 :=
            (⟨some v1, some v2, none, 1, true⟩ : MatchEntry) :: r.m12 }) ∧
      (mandPairExists r.m12 (fun e => e.c1) (fun e => e.c2) v1 v2 = true →
        add_mandatory_step cols1 cols2 cols3 r m = r)) ∧
    (∀ v1 v3, resolve1 cols1 m = some v1 → resolve2 cols2 m = none →
      resolve3 cols3 m = some v3 →
      (mandPairExists r.m13 (fun e => e.c1) (fun e => e.c3) v1 v3 = false →
        add_mandatory_step cols1 cols2 cols3 r m =
          { r with m13 :=
            (⟨some v1, none, some v3, 1, true⟩ : MatchEntry) :: r.m13 }) ∧
      (mandPairExists r.m13 (fun e => e.c1) (fun e => e.c3) v1 v3 = true →
        add_mandatory_step cols1 cols2 cols3 r m = r)) ∧
    (∀ v2 v3, resolve1 cols1 m = none → resolve2 cols2 m = some v2 →
      resolve3 cols3 m = some v3 →
      (mandPairExists r.m23 (fun e => e.c2) (fun e => e.c3) v2 v3 = false →
        add_mandatory_step cols1 cols2 cols3 r m =
          { r with m23 :=
            (⟨none, some v2, some v3, 1, true⟩ : MatchEntry) :: r.m23 }) ∧
      (mandPairExists r.m23 (fun e => e.c2) (fun e => e.c3) v2 v3 = true →
        add_mandatory_step cols1 cols2 cols3 r m = r)) ∧
    (resolve2 cols2 m = none → resolve3 cols3 m = none →
      add_mandatory_step cols1 cols2 cols3 r m = r) ∧
    (resolve1 cols1 m = none → resolve2 cols2 m = none →
      add_mandatory_step cols1 cols2 cols3 r m = r) ∧
    (resolve1 cols1 m = none → resolve3 cols3 m = none →
      add_mandatory_step cols1 cols2 cols3 r m = r) := by
  refine ⟨?_, ?_, ?_, ?_, ?_, ?_, ?_⟩
  · intro v1 v2 v3 h1 h2 h3
    constructor <;> intro hex <;> simp [add_mandatory_step, h1, h2, h3, hex]
  · intro v1 v2 h1 h2 h3
    constructor <;> intro hex <;> simp [add_mandatory_step, h1, h2, h3, hex]
  · intro v1 v3 h1 h2 h3
    constructor <;> intro hex <;> simp [add_mandatory_step, h1, h2, h3, hex]
  · intro v2 v3 h1 h2 h3
    constructor <;> intro hex <;> simp [add_mandatory_step, h1, h2, h3, hex]
  · intro h2 h3
    cases h1 : resolve1 cols1 m <;> simp [add_mandatory_step, h1, h2, h3]
  · intro h1 h2
    cases h3 : resolve3 cols3 m <;> simp [add_mandatory_step, h1, h2, h3]
  · intro h1 h3
    cases h2 : resolve2 cols2 m <;> simp [add_mandatory_step, h1, h2, h3]

theorem mandatory_injection_witness :
    add_mandatory_step ["Артикул продавца"] ["Артикул*"] ["Ваш SKU *"]
        ⟨[], [], [], [], [], [], []⟩
        ⟨"Артикул продавца", "Артикул*", "Ваш SKU *", "Уникальный артикул товара"⟩ =
      ⟨[{ c1 := some "Артикул продавца", c2 := some "Артикул*",
          c3 := some "Ваш SKU *", confidence := 1, mandatory := true }],
        [], [], [], [], [], []⟩ :=
  ((mandatory_injection ["Артикул продавца"] ["Артикул*"] ["Ваш SKU *"]
      ⟨[], [], [], [], [], [], []⟩
      ⟨"Артикул продавца", "Артикул*", "Ваш SKU *", "Уникальный артикул товара"⟩).1
    "Артикул продавца" "Артикул*" "Ваш SKU *"
    (by decide) (by decide) (by decide)).1 (by decide)

/-! ### Table access lemmas -/

theorem getCell_setCell_ne (r : Row) {col col' : String} (c : Cell)
    (h : col' ≠ col) : (r.setCell col c).getCell col' = r.getCell col' := by
  induction r with
  | nil => rfl
  | cons kv rest ih =>
    obtain ⟨k, v⟩ := kv
    rw [Row.setCell]
    by_cases hk : k = col
    · rw [if_pos hk]
      rw [Row.getCell, Row.getCell, if_neg (by rw [hk]; exact fun hc => h hc.symm),
        if_neg (by rw [hk]; exact fun hc => h hc.symm)]
    · rw [if_neg hk]
      rw [Row.getCell, Row.getCell]
      by_cases hkc : k = col'
      · rw [if_pos hkc, if_pos hkc]
      · rw [if_neg hkc, if_neg hkc, ih]

theorem setCell_keys (r : Row) (col : String) (c : Cell) :
    (r.setCell col c).map Prod.fst = r.map Prod.fst := by
  induction r with
  | nil => rfl
  | cons kv rest ih =>
    obtain ⟨k, v⟩ := kv
    rw [Row.setCell]
    by_cases hk : k = col
    · rw [if_pos hk]; rfl
    · rw [if_neg hk]; simpa using ih

theorem getCell_setCell_mem (r : Row) {col : String} (c : Cell)
    (h : col ∈ r.map Prod.fst) : (r.setCell col c).getCell col = c := by
  induction r with
  | nil => simp at h
  | cons kv rest ih =>
    obtain ⟨k, v⟩ := kv
    rw [Row.setCell]
    by_cases hk : k = col
    · rw [if_pos hk, Row.getCell, if_pos hk]
    · rw [if_neg hk, Row.getCell, if_neg hk]
      refine ih ?_
      have h' : col ∈ k :: rest.map Prod.fst := h
      rcases List.mem_cons.mp h' with hc | hc
      · exact absurd hc.symm hk
      · exact hc

theorem setRowAt_get_ne (rows : List Row) (idx : ℕ) (col : String) (c : Cell)
    {i : ℕ} (h : i ≠ idx) : (setRowAt rows idx col c)[i]? = rows[i]? := by
  induction rows generalizing idx i with
  | nil => rfl
  | cons r rs ih =>
    cases idx with
    | zero =>
      cases i with
      | zero => exact absurd rfl h
      | succ j => simp [setRowAt]
    | succ n =>
      cases i with
      | zero => simp [setRowAt]
      | succ j =>
        simp only [setRowAt, List.getElem?_cons_succ]
        exact ih n (fun hc => h (by omega))

theorem setRowAt_get_same (rows : List Row) (idx : ℕ) (col : String) (c : Cell) :
    (setRowAt rows idx col c)[idx]? = (rows[idx]?).map (fun r => r.setCell col c) := by
  induction rows generalizing idx with
  | nil => cases idx <;> simp [setRowAt]
  | cons r rs ih =>
    cases idx with
    | zero => simp [setRowAt]
    | succ n =>
      simp only [setRowAt, List.getElem?_cons_succ]
      exact ih n

theorem setRowAt_length (rows : List Row) (idx : ℕ) (col : String) (c : Cell) :
    (setRowAt rows idx col c).length = rows.length := by
  induction rows generalizing idx with
  | nil => rfl
  | cons r rs ih =>
    cases idx with
    | zero => rfl
    | succ n => rw [setRowAt]; simpa using ih n

theorem getAt_setAt_ne (df : Df) {idx : ℕ} {col : String} (c : Cell)
    {i : ℕ} {col' : String} (h : i ≠ idx ∨ col' ≠ col) :
    (df.setAt idx col c).getAt i col' = df.getAt i col' := by
  unfold Df.getAt Df.setAt
  rcases h with h | h
  · rw [setRowAt_get_ne df.rows idx col c h]
  · by_cases hi : i = idx
    · subst hi
      show (match (setRowAt df.rows i col c)[i]? with
        | some r => r.getCell col' | none => Cell.na) = _
      rw [setRowAt_get_same]
      cases hr : df.rows[i]? with
      | none => rfl
      | some r =>
        simp only [Option.map_some']
        exact getCell_setCell_ne r c h
    · show (match (setRowAt df.rows idx col c)[i]? with
        | some r => r.getCell col' | none => Cell.na) = _
      rw [setRowAt_get_ne df.rows idx col c hi]

theorem setAt_cols (df : Df) (idx : ℕ) (col : String) (c : Cell) :
    (df.setAt idx col c).cols = df.cols := rfl

theorem dictGet?_mem {α : Type} {m : List (String × α)} {k : String} {v : α}
    (h : dictGet? m k = some v) : (k, v) ∈ m := by
  induction m with
  | nil => simp [dictGet?] at h
  | cons kv rest ih =>
    obtain ⟨k', v'⟩ := kv
    rw [dictGet?] at h
    by_cases hk : k' = k
    · rw [if_pos hk] at h
      cases h
      subst hk
      exact List.mem_cons_self _ _
    · rw [if_neg hk] at h
      exact List.mem_cons_of_mem _ (ih h)

theorem dictUpsert_forall {α : Type} {P : String × α → Prop}
    {m : List (String × α)} {k : String} {v : α}
    (hm : ∀ e ∈ m, P e) (hkv : P (k, v)) :
    ∀ e ∈ dictUpsert m k v, P e := by
  induction m with
  | nil => intro e he; rcases List.mem_singleton.mp he with rfl; exact hkv
  | cons kv' rest ih =>
    obtain ⟨k', v'⟩ := kv'
    rw [dictUpsert]
    by_cases hk : k' = k
    · rw [if_pos hk]
      intro e he
      rcases List.mem_cons.mp he with rfl | he'
      · subst hk; exact hkv
      · exact hm e (List.mem_cons_of_mem _ he')
    · rw [if_neg hk]
      intro e he
      rcases List.mem_cons.mp he with rfl | he'
      · exact hm _ (List.mem_cons_self _ _)
      · exact ih (fun e' he'' => hm e' (List.mem_cons_of_mem _ he'')) e he'

/-! ### Frame lemmas: guarded writes never touch non-empty cells -/

theorem FrameDf_refl (df : Df) : FrameDf df df := fun _ _ _ => rfl

theorem FrameDf_trans {a b c : Df} (h1 : FrameDf a b) (h2 : FrameDf b c) :
    FrameDf a c := by
  intro i col hne
  have e1 := h1 i col hne
  have hne2 : cellNonEmpty (b.getAt i col) = true := by rw [e1]; exact hne
  rw [h2 i col hne2, e1]

theorem Frame_refl (dfs : Dfs) : Frame dfs dfs := fun _ _ _ _ => rfl

theorem Frame_trans {a b c : Dfs} (h1 : Frame a b) (h2 : Frame b c) :
    Frame a c := by
  intro mp i col hne
  have e1 := h1 mp i col hne
  have hne2 : cellNonEmpty ((b.get mp).getAt i col) = true := by rw [e1]; exact hne
  rw [h2 mp i col hne2, e1]

theorem Frame_mk {dfs : Dfs} {dfW dfO dfY : Df}
    (hW : FrameDf dfs.wb dfW) (hO : FrameDf dfs.ozon dfO)
    (hY : FrameDf dfs.yandex dfY) : Frame dfs ⟨dfW, dfO, dfY⟩ := by
  intro mp
  cases mp with
  | wb => exact hW
  | ozon => exact hO
  | yandex => exact hY

theorem writeIfEmpty_frame (df : Df) (idx : ℕ) (col : String) (c : Cell) :
    FrameDf df (writeIfEmpty df idx col c).1 := by
  intro i col' hne
  unfold writeIfEmpty
  by_cases hg : cellNonEmpty (df.getAt idx col) = true
  · rw [if_pos hg]
  · rw [if_neg hg]
    apply getAt_setAt_ne
    by_cases hi : i = idx
    · right
      intro hc
      subst hi hc
      exact hg hne
    · left; exact hi

theorem writeIfEmpty_fst_frame {df d : Df} {idx : ℕ} {col : String} {c : Cell}
    {n : ℕ} (h : writeIfEmpty df idx col c = (d, n)) : FrameDf df d := by
  have := writeIfEmpty_frame df idx col c
  rw [h] at this
  exact this

theorem syncYandexEntry_frame (dfs : Dfs) (a : String) (d : Dims) :
    Frame dfs (syncYandexEntry dfs a d).1 := by
  unfold syncYandexEntry
  have hW : FrameDf dfs.wb
      (match findRowIdx dfs.wb (ARTICLE_COLUMNS .wb) a with
        | some idx =>
          let (d1, x) := writeIfEmpty dfs.wb idx wbLengthCol (Cell.num d.length)
          let (d2, y) := writeIfEmpty d1 idx wbWidthCol (Cell.num d.width)
          let (d3, z) := writeIfEmpty d2 idx wbHeightCol (Cell.num d.height)
          (d3, x + y + z)
        | none => (dfs.wb, 0)).1 := by
    cases hfi : findRowIdx dfs.wb (ARTICLE_COLUMNS .wb) a with
    | none => exact FrameDf_refl _
    | some idx =>
      cases he1 : writeIfEmpty dfs.wb idx wbLengthCol (Cell.num d.length) with
      | mk d1 x =>
        cases he2 : writeIfEmpty d1 idx wbWidthCol (Cell.num d.width) with
        | mk d2 y =>
          cases he3 : writeIfEmpty d2 idx wbHeightCol (Cell.num d.height) with
          | mk d3 z =>
            simp only [he1, he2, he3]
            exact FrameDf_trans (writeIfEmpty_fst_frame he1)
              (FrameDf_trans (writeIfEmpty_fst_frame he2) (writeIfEmpty_fst_frame he3))
  have hO : FrameDf dfs.ozon
      (match findRowIdx dfs.ozon (ARTICLE_COLUMNS .ozon) a with
        | some idx =>
          let (d1, x) := writeIfEmpty dfs.ozon idx ozonLengthCol
            (Cell.num (pyInt (cm_to_mm d.length) : ℚ))
          let (d2, y) := writeIfEmpty d1 idx ozonWidthCol
            (Cell.num (pyInt (cm_to_mm d.width) : ℚ))
          let (d3, z) := writeIfEmpty d2 idx ozonHeightCol
            (Cell.num (pyInt (cm_to_mm d.height) : ℚ))
          (d3, x + y + z)
        | none => (dfs.ozon, 0)).1 := by
    cases hfi : findRowIdx dfs.ozon (ARTICLE_COLUMNS .ozon) a with
    | none => exact FrameDf_refl _
    | some idx =>
      cases he1 : writeIfEmpty dfs.ozon idx ozonLengthCol
          (Cell.num (pyInt (cm_to_mm d.length) : ℚ)) with
      | mk d1 x =>
        cases he2 : writeIfEmpty d1 idx ozonWidthCol
            (Cell.num (pyInt (cm_to_mm d.width) : ℚ)) with
        | mk d2 y =>
          cases he3 : writeIfEmpty d2 idx ozonHeightCol
              (Cell.num (pyInt (cm_to_mm d.height) : ℚ)) with
          | mk d3 z =>
            simp only [he1, he2, he3]
            exact FrameDf_trans (writeIfEmpty_fst_frame he1)
              (FrameDf_trans (writeIfEmpty_fst_frame he2) (writeIfEmpty_fst_frame he3))
  exact Frame_mk hW hO (FrameDf_refl _)

theorem syncWbEntry_frame (dfs : Dfs) (yd : List (String × Dims)) (a : String)
    (d : Dims) : Frame dfs (syncWbEntry dfs yd a d).1 := by
  unfold syncWbEntry
  by_cases hg : (dictGet? yd a).isSome = true
  · rw [if_pos hg]; exact Frame_refl _
  · rw [if_neg hg]
    cases hfi : findRowIdx dfs.yandex (ARTICLE_COLUMNS .yandex) a with
    | none => exact Frame_refl _
    | some idx =>
      cases he : writeIfEmpty dfs.yandex idx yandexCompositeCol
          (Cell.str (format_composite_dimensions d.length d.width d.height)) with
      | mk dY c =>
        simp only [he]
        exact Frame_mk (FrameDf_refl _) (FrameDf_refl _) (writeIfEmpty_fst_frame he)

theorem syncOzonEntry_frame (dfs : Dfs) (yd : List (String × Dims)) (a : String)
    (d : Dims) : Frame dfs (syncOzonEntry dfs yd a d).1 := by
  unfold syncOzonEntry
  have h1 : Frame dfs
      (if (dictGet? yd a).isSome = true then (dfs, 0)
        else
          match findRowIdx dfs.yandex (ARTICLE_COLUMNS .yandex) a with
          | some idx =>
            let (dfY, c) := writeIfEmpty dfs.yandex idx yandexCompositeCol
              (Cell.str (format_composite_dimensions d.length d.width d.height))
            ({ dfs with yandex := dfY }, c)
          | none => (dfs, 0)).1 := by
    by_cases hg : (dictGet? yd a).isSome = true
    · rw [if_pos hg]; exact Frame_refl _
    · rw [if_neg hg]
      cases hfi : findRowIdx dfs.yandex (ARTICLE_COLUMNS .yandex) a with
      | none => exact Frame_refl _
      | some idx =>
        cases he : writeIfEmpty dfs.yandex idx yandexCompositeCol
            (Cell.str (format_composite_dimensions d.length d.width d.height)) with
        | mk dY c =>
          simp only [he]
          exact Frame_mk (FrameDf_refl _) (FrameDf_refl _) (writeIfEmpty_fst_frame he)
  set dfs1 := (if (dictGet? yd a).isSome = true then (dfs, 0)
    else
      match findRowIdx dfs.yandex (ARTICLE_COLUMNS .yandex) a with
      | some idx =>
        let (dfY, c) := writeIfEmpty dfs.yandex idx yandexCompositeCol
          (Cell.str (format_composite_dimensions d.length d.width d.height))
        ({ dfs with yandex := dfY }, c)
      | none => (dfs, 0)).1 with hdfs1
  refine Frame_trans h1 ?_
  cases hfi : findRowIdx dfs1.wb (ARTICLE_COLUMNS .wb) a with
  | none => simp only [hfi]; exact Frame_refl _
  | some idx =>
    simp only [hfi]
    cases he1 : writeIfEmpty dfs1.wb idx wbLengthCol (Cell.num d.length) with
    | mk d1 x =>
      cases he2 : writeIfEmpty d1 idx wbWidthCol (Cell.num d.width) with
      | mk d2 y =>
        cases he3 : writeIfEmpty d2 idx wbHeightCol (Cell.num d.height) with
        | mk d3 z =>
          simp only [he1, he2, he3]
          exact Frame_mk
            (FrameDf_trans (writeIfEmpty_fst_frame he1)
              (FrameDf_trans (writeIfEmpty_fst_frame he2) (writeIfEmpty_fst_frame he3)))
            (FrameDf_refl _) (FrameDf_refl _)

theorem frame_foldl {α : Type} (f : Dfs × ℕ → α → Dfs × ℕ)
    (hf : ∀ acc a, Frame acc.1 (f acc a).1) (l : List α) (start : Dfs × ℕ) :
    Frame start.1 (l.foldl f start).1 := by
  induction l generalizing start with
  | nil => exact Frame_refl _
  | cons a as ih =>
    rw [List.foldl_cons]
    exact Frame_trans (hf start a) (ih (f start a))

theorem sync_yandex_to_others_frame (dfs : Dfs) (yd : List (String × Dims)) :
    Frame dfs (sync_yandex_to_others dfs yd).1 := by
  unfold sync_yandex_to_others
  have hf : ∀ (acc : Dfs × ℕ) (e : String × Dims),
      Frame acc.1 ((fun (acc : Dfs × ℕ) (e : String × Dims) =>
        let (d2, c) := syncYandexEntry acc.1 e.1 e.2
        (d2, acc.2 + c)) acc e).1 := by
    intro acc e
    cases he : syncYandexEntry acc.1 e.1 e.2 with
    | mk d2 c =>
      simp only [he]
      have := syncYandexEntry_frame acc.1 e.1 e.2
      rw [he] at this
      exact this
  exact frame_foldl _ hf _ (_, 0)

theorem sync_wb_to_yandex_frame (dfs : Dfs) (wd yd : List (String × Dims)) :
    Frame dfs (sync_wb_to_yandex dfs wd yd).1 := by
  unfold sync_wb_to_yandex
  have hf : ∀ (acc : Dfs × ℕ) (e : String × Dims),
      Frame acc.1 ((fun (acc : Dfs × ℕ) (e : String × Dims) =>
        let (d2, c) := syncWbEntry acc.1 yd e.1 e.2
        (d2, acc.2 + c)) acc e).1 := by
    intro acc e
    cases he : syncWbEntry acc.1 yd e.1 e.2 with
    | mk d2 c =>
      simp only [he]
      have := syncWbEntry_frame acc.1 yd e.1 e.2
      rw [he] at this
      exact this
  exact frame_foldl _ hf _ (_, 0)

theorem sync_ozon_to_others_frame (dfs : Dfs) (od yd : List (String × Dims)) :
    Frame dfs (sync_ozon_to_others dfs od yd).1 := by
  unfold sync_ozon_to_others
  have hf : ∀ (acc : Dfs × ℕ) (e : String × Dims),
      Frame acc.1 ((fun (acc : Dfs × ℕ) (e : String × Dims) =>
        let (d2, c) := syncOzonEntry acc.1 yd e.1 e.2
        (d2, acc.2 + c)) acc e).1 := by
    intro acc e
    cases he : syncOzonEntry acc.1 yd e.1 e.2 with
    | mk d2 c =>
      simp only [he]
      have := syncOzonEntry_frame acc.1 yd e.1 e.2
      rw [he] at this
      exact this
  exact frame_foldl _ hf _ (_, 0)

theorem sync_dimensions_frame (dfs : Dfs) : Frame dfs (sync_dimensions dfs).1 := by
  unfold sync_dimensions
  by_cases hw : (dfs.wb.hasCol wbLengthCol && dfs.wb.hasCol wbWidthCol &&
      dfs.wb.hasCol wbHeightCol) = true
  · rw [if_neg (by simp [hw])]
    by_cases ho : (dfs.ozon.hasCol ozonLengthCol && dfs.ozon.hasCol ozonWidthCol &&
        dfs.ozon.hasCol ozonHeightCol) = true
    · rw [if_neg (by simp [ho])]
      cases h1 : sync_yandex_to_others dfs (collectYandexDims dfs.yandex) with
      | mk dfs1 c1 =>
        cases h2 : sync_wb_to_yandex dfs1 (collectWbDims dfs.wb)
            (collectYandexDims dfs.yandex) with
        | mk dfs2 c2 =>
          cases h3 : sync_ozon_to_others dfs2 (collectOzonDims dfs.ozon)
              (collectYandexDims dfs.yandex) with
          | mk dfs3 c3 =>
            simp only [h1, h2, h3]
            have f1 := sync_yandex_to_others_frame dfs (collectYandexDims dfs.yandex)
            rw [h1] at f1
            have f2 := sync_wb_to_yandex_frame dfs1 (collectWbDims dfs.wb)
              (collectYandexDims dfs.yandex)
            rw [h2] at f2
            have f3 := sync_ozon_to_others_frame dfs2 (collectOzonDims dfs.ozon)
              (collectYandexDims dfs.yandex)
            rw [h3] at f3
            exact Frame_trans f1 (Frame_trans f2 f3)
    · rw [if_pos (by simp only [Bool.not_eq_true] at ho; simp [ho])]
      exact Frame_refl _
  · rw [if_pos (by simp only [Bool.not_eq_true] at hw; simp [hw])]
    exact Frame_refl _

/-- C7: the Dimension Synchronizer writes only empty cells — every
non-empty cell of every catalog keeps its exact value across
`sync_dimensions`. -/
theorem dimension_sync_preserves_nonempty (dfs : Dfs) (mp : MP) (idx : ℕ)
    (col : String) (hne : cellNonEmpty ((dfs.get mp).getAt idx col) = true) :
    ((sync_dimensions dfs).1.get mp).getAt idx col = (dfs.get mp).getAt idx col :=
  sync_dimensions_frame dfs mp idx col hne

theorem dimension_sync_preserves_nonempty_witness :
    ((sync_dimensions ⟨⟨["Артикул продавца"], [[("Артикул продавца", Cell.str "A")]]⟩,
        ⟨["Артикул*"], [[("Артикул*", Cell.str "A")]]⟩,
        ⟨["Ваш SKU *"], [[("Ваш SKU *", Cell.str "A")]]⟩⟩).1.get MP.wb).getAt 0
        "Артикул продавца" =
      ((⟨⟨["Артикул продавца"], [[("Артикул продавца", Cell.str "A")]]⟩,
        ⟨["Артикул*"], [[("Артикул*", Cell.str "A")]]⟩,
        ⟨["Ваш SKU *"], [[("Ваш SKU *", Cell.str "A")]]⟩⟩ : Dfs).get MP.wb).getAt 0
        "Артикул продавца" :=
  dimension_sync_preserves_nonempty _ MP.wb 0 "Артикул продавца" (by decide)

/-! ### Write localisation: each pass touches only its matched columns -/

theorem foldl_inv {α β : Type} (P : β → Prop) (f : β → α → β)
    (hP : ∀ b a, P b → P (f b a)) (l : List α) (b : β) (hb : P b) :
    P (l.foldl f b) := by
  induction l generalizing b with
  | nil => exact hb
  | cons a as ih => exact ih (f b a) (hP b a hb)

theorem fill_changes_only_col (ai : ValueOracle) (validations : Validations)
    (df : Df) (article col : String) (sv : Cell) (su tu : Option MUnit)
    (mp : MP) (dataMap : List (String × ℕ × Cell)) (cur : Cell) :
    ∀ i c, c ≠ col →
      (fill_marketplace_value ai validations df article col sv su tu mp
        dataMap cur).1.getAt i c = df.getAt i c := by
  intro i c hc
  unfold fill_marketplace_value
  by_cases hcur : cellNonEmpty cur = true
  · rw [if_pos hcur]
  · rw [if_neg hcur]
    cases hm : dictGet? dataMap article with
    | none => rfl
    | some e =>
      obtain ⟨idx, cv⟩ := e
      simp only
      cases ht : truthyOpt (validate_multiple_values ai mp
          (convert_value sv su tu) (validations mp col)) with
      | some v =>
        simp only
        exact getAt_setAt_ne df _ (Or.inr hc)
      | none =>
        simp only
        by_cases ha : (validations mp col).isEmpty = true
        · rw [if_pos ha]
          exact getAt_setAt_ne df _ (Or.inr hc)
        · rw [if_neg ha]

theorem fill_composite_changes_only (dfs : Dfs) (article colYandex : String)
    (su uW uO : Option MUnit) (yandexData : List (String × ℕ × Cell))
    (cur : Cell) :
    (fill_composite_dimensions dfs article colYandex su uW uO yandexData
        cur).1.wb = dfs.wb ∧
    (fill_composite_dimensions dfs article colYandex su uW uO yandexData
        cur).1.ozon = dfs.ozon ∧
    ∀ i c, c ≠ colYandex →
      (fill_composite_dimensions dfs article colYandex su uW uO yandexData
        cur).1.yandex.getAt i c = dfs.yandex.getAt i c := by
  unfold fill_composite_dimensions
  by_cases hcur : cellNonEmpty cur = true
  · rw [if_pos hcur]
    exact ⟨rfl, rfl, fun i c _ => rfl⟩
  · rw [if_neg hcur]
    cases hm : dictGet? yandexData article with
    | none => exact ⟨rfl, rfl, fun i c _ => rfl⟩
    | some e =>
      obtain ⟨idx, cv⟩ := e
      simp only
      cases hcomp : composite_source dfs article su uW uO with
      | none => exact ⟨rfl, rfl, fun i c _ => rfl⟩
      | some comp =>
        exact ⟨rfl, rfl, fun i c hc => getAt_setAt_ne dfs.yandex _ (Or.inr hc)⟩

theorem get_set_same (dfs : Dfs) (mp : MP) (df : Df) :
    (dfs.set mp df).get mp = df := by
  cases mp <;> rfl

theorem get_set_ne (dfs : Dfs) {mp mp' : MP} (df : Df) (h : mp' ≠ mp) :
    (dfs.set mp df).get mp' = dfs.get mp' := by
  cases mp <;> cases mp' <;> first
    | exact absurd rfl h
    | rfl

theorem syncThreeStep_outside (ai : ValueOracle) (validations : Validations)
    (colW colO colY : String) (uW uO uY : Option MUnit)
    (wbD ozD yaD : List (String × ℕ × Cell)) (acc : Dfs × ℕ) (article : String) :
    (∀ i c, c ≠ colW →
      (syncThreeStep ai validations colW colO colY uW uO uY wbD ozD yaD acc
        article).1.wb.getAt i c = acc.1.wb.getAt i c) ∧
    (∀ i c, c ≠ colO →
      (syncThreeStep ai validations colW colO colY uW uO uY wbD ozD yaD acc
        article).1.ozon.getAt i c = acc.1.ozon.getAt i c) ∧
    (∀ i c, c ≠ colY →
      (syncThreeStep ai validations colW colO colY uW uO uY wbD ozD yaD acc
        article).1.yandex.getAt i c = acc.1.yandex.getAt i c) := by
  unfold syncThreeStep
  by_cases hemp : article.isEmpty = true
  · rw [if_pos hemp]
    exact ⟨fun _ _ _ => rfl, fun _ _ _ => rfl, fun _ _ _ => rfl⟩
  · rw [if_neg hemp]
    cases hsv : find_source_value (((dictGet? wbD article).map (·.2)).getD Cell.na)
        (((dictGet? ozD article).map (·.2)).getD Cell.na)
        (((dictGet? yaD article).map (·.2)).getD Cell.na) uW uO uY with
    | none => exact ⟨fun _ _ _ => rfl, fun _ _ _ => rfl, fun _ _ _ => rfl⟩
    | some p =>
      obtain ⟨sv, su⟩ := p
      simp only
      cases he1 : fill_marketplace_value ai validations acc.1.wb article colW sv
          su uW .wb wbD (((dictGet? wbD article).map (·.2)).getD Cell.na) with
      | mk dfW c1 =>
        cases he2 : fill_marketplace_value ai validations acc.1.ozon article colO
            sv su uO .ozon ozD (((dictGet? ozD article).map (·.2)).getD Cell.na) with
        | mk dfO c2 =>
          have hW : ∀ i c, c ≠ colW → dfW.getAt i c = acc.1.wb.getAt i c := by
            intro i c hc
            have := fill_changes_only_col ai validations acc.1.wb article colW sv
              su uW .wb wbD (((dictGet? wbD article).map (·.2)).getD Cell.na) i c hc
            rw [he1] at this
            exact this
          have hO : ∀ i c, c ≠ colO → dfO.getAt i c = acc.1.ozon.getAt i c := by
            intro i c hc
            have := fill_changes_only_col ai validations acc.1.ozon article colO
              sv su uO .ozon ozD (((dictGet? ozD article).map (·.2)).getD Cell.na) i c hc
            rw [he2] at this
            exact this
          by_cases hcy : (colY == yandexCompositeCol) = true
          · rw [if_pos hcy]
            simp only [he1, he2]
            cases he3 : fill_composite_dimensions
                { acc.1 with wb := dfW, ozon := dfO } article colY su uW uO yaD
                (((dictGet? yaD article).map (·.2)).getD Cell.na) with
            | mk dfs3 c3 =>
              have hc3 := fill_composite_changes_only
                { acc.1 with wb := dfW, ozon := dfO } article colY su uW uO yaD
                (((dictGet? yaD article).map (·.2)).getD Cell.na)
              rw [he3] at hc3
              exact ⟨fun i c hc => by rw [hc3.1]; exact hW i c hc,
                fun i c hc => by rw [hc3.2.1]; exact hO i c hc,
                fun i c hc => hc3.2.2 i c hc⟩
          · rw [if_neg hcy]
            simp only [he1, he2]
            cases he3 : fill_marketplace_value ai validations acc.1.yandex article
                colY sv su uY .yandex yaD
                (((dictGet? yaD article).map (·.2)).getD Cell.na) with
            | mk dfY c3 =>
              refine ⟨fun i c hc => hW i c hc, fun i c hc => hO i c hc, ?_⟩
              intro i c hc
              have := fill_changes_only_col ai validations acc.1.yandex article
                colY sv su uY .yandex yaD
                (((dictGet? yaD article).map (·.2)).getD Cell.na) i c hc
              rw [he3] at this
              exact this

theorem sync_three_columns_outside (ai : ValueOracle) (validations : Validations)
    (dfs : Dfs) (colW colO colY : String) :
    (∀ i c, c ≠ colW →
      (sync_three_columns ai validations dfs colW colO colY).1.wb.getAt i c =
        dfs.wb.getAt i c) ∧
    (∀ i c, c ≠ colO →
      (sync_three_columns ai validations dfs colW colO colY).1.ozon.getAt i c =
        dfs.ozon.getAt i c) ∧
    (∀ i c, c ≠ colY →
      (sync_three_columns ai validations dfs colW colO colY).1.yandex.getAt i c =
        dfs.yandex.getAt i c) := by
  unfold sync_three_columns
  refine foldl_inv (fun acc : Dfs × ℕ =>
    (∀ i c, c ≠ colW → acc.1.wb.getAt i c = dfs.wb.getAt i c) ∧
    (∀ i c, c ≠ colO → acc.1.ozon.getAt i c = dfs.ozon.getAt i c) ∧
    (∀ i c, c ≠ colY → acc.1.yandex.getAt i c = dfs.yandex.getAt i c)) _
    ?_ _ _ ⟨fun _ _ _ => rfl, fun _ _ _ => rfl, fun _ _ _ => rfl⟩
  intro acc a ⟨hw, ho, hy⟩
  have hstep := syncThreeStep_outside ai validations colW colO colY
    (detect_unit colW) (detect_unit colO) (detect_unit colY)
    (create_article_map dfs.wb (ARTICLE_COLUMNS .wb) colW)
    (create_article_map dfs.ozon (ARTICLE_COLUMNS .ozon) colO)
    (create_article_map dfs.yandex (ARTICLE_COLUMNS .yandex) colY) acc a
  exact ⟨fun i c hc => by rw [hstep.1 i c hc]; exact hw i c hc,
    fun i c hc => by rw [hstep.2.1 i c hc]; exact ho i c hc,
    fun i c hc => by rw [hstep.2.2 i c hc]; exact hy i c hc⟩

theorem syncTwoFillA_outside (ai : ValueOracle) (validations : Validations)
    (mp1 : MP) (col1 : String) (u1 u2 : Option MUnit)
    (d1 : List (String × ℕ × Cell)) (v1 v2 : Cell) (base : Dfs)
    (article : String) :
    ∀ mp i c, (mp ≠ mp1 ∨ c ≠ col1) →
      ((syncTwoFillA ai validations mp1 col1 u1 u2 d1 v1 v2 base
        article).1.get mp).getAt i c = (base.get mp).getAt i c := by
  intro mp i c h1
  unfold syncTwoFillA
  by_cases hg : (!cellNonEmpty v1 && cellNonEmpty v2) = true
  · rw [if_pos hg]
    by_cases hmp : mp = mp1
    · subst hmp
      rcases h1 with h1 | h1
      · exact absurd rfl h1
      · simp only [get_set_same]
        exact fill_changes_only_col ai validations (base.get mp) article col1
          v2 u2 u1 mp d1 v1 i c h1
    · simp only [get_set_ne base _ hmp]
  · rw [if_neg hg]

theorem syncTwoStep_outside (ai : ValueOracle) (validations : Validations)
    (mp1 mp2 : MP) (col1 col2 : String) (u1 u2 : Option MUnit)
    (d1 d2 : List (String × ℕ × Cell)) (acc : Dfs × ℕ) (article : String) :
    ∀ mp i c, (mp ≠ mp1 ∨ c ≠ col1) → (mp ≠ mp2 ∨ c ≠ col2) →
      ((syncTwoStep ai validations mp1 mp2 col1 col2 u1 u2 d1 d2 acc
        article).1.get mp).getAt i c = ((acc.1.get mp).getAt i c) := by
  intro mp i c h1 h2
  unfold syncTwoStep
  by_cases hemp : article.isEmpty = true
  · rw [if_pos hemp]
  · rw [if_neg hemp]
    simp only
    rw [syncTwoFillA_outside ai validations mp2 col2 u2 u1 d2 _ _ _ article mp i c h2]
    rw [syncTwoFillA_outside ai validations mp1 col1 u1 u2 d1 _ _ _ article mp i c h1]

theorem sync_two_columns_outside (ai : ValueOracle) (validations : Validations)
    (dfs : Dfs) (mp1 mp2 : MP) (col1 col2 : String) :
    ∀ mp i c, (mp ≠ mp1 ∨ c ≠ col1) → (mp ≠ mp2 ∨ c ≠ col2) →
      ((sync_two_columns ai validations dfs mp1 mp2 col1 col2).1.get mp).getAt
        i c = ((dfs.get mp).getAt i c) := by
  intro mp i c h1 h2
  unfold sync_two_columns
  refine foldl_inv (fun acc : Dfs × ℕ =>
    ((acc.1.get mp).getAt i c = (dfs.get mp).getAt i c)) _ ?_ _ _ rfl
  intro acc a hacc
  rw [syncTwoStep_outside ai validations mp1 mp2 col1 col2
    (detect_unit col1) (detect_unit col2)
    (create_article_map (dfs.get mp1) (ARTICLE_COLUMNS mp1) col1)
    (create_article_map (dfs.get mp2) (ARTICLE_COLUMNS mp2) col2) acc a
    mp i c h1 h2]
  exact hacc

theorem sync3MatchStep_excl (ai : ValueOracle) (validations : Validations)
    (acc : Dfs × ℕ) (m : MatchEntry) :
    ExclFrame acc.1 (sync3MatchStep ai validations acc m).1 := by
  intro mp i c hex
  unfold sync3MatchStep
  cases h1 : truthyOpt m.c1 with
  | none => cases truthyOpt m.c2 <;> cases truthyOpt m.c3 <;> rfl
  | some colW =>
  cases h2 : truthyOpt m.c2 with
  | none => cases truthyOpt m.c3 <;> rfl
  | some colO =>
  cases h3 : truthyOpt m.c3 with
  | none => rfl
  | some colY =>
  simp only
  by_cases hskip : (is_excluded_column colW || is_excluded_column colO ||
      is_excluded_column colY) = true
  · rw [if_pos hskip]
  · rw [if_neg hskip]
    simp only [Bool.or_eq_true, not_or, Bool.not_eq_true] at hskip
    obtain ⟨⟨hW, hO⟩, hY⟩ := hskip
    by_cases hcols : (acc.1.wb.hasCol colW && acc.1.ozon.hasCol colO &&
        acc.1.yandex.hasCol colY) = true
    · rw [if_neg (by simp [hcols])]
      cases hs : sync_three_columns ai validations acc.1 colW colO colY with
      | mk d cnt =>
        simp only [hs]
        have hout := sync_three_columns_outside ai validations acc.1 colW colO colY
        rw [hs] at hout
        have hcW : c ≠ colW := by intro hc; subst hc; rw [hex] at hW; cases hW
        have hcO : c ≠ colO := by intro hc; subst hc; rw [hex] at hO; cases hO
        have hcY : c ≠ colY := by intro hc; subst hc; rw [hex] at hY; cases hY
        cases mp with
        | wb => exact hout.1 i c hcW
        | ozon => exact hout.2.1 i c hcO
        | yandex => exact hout.2.2 i c hcY
    · rw [if_pos (by simp only [Bool.not_eq_true] at hcols; simp [hcols])]

theorem sync2MatchStep_excl (ai : ValueOracle) (validations : Validations)
    (mp1 mp2 : MP) (get1 get2 : MatchEntry → Option String)
    (acc : Dfs × ℕ) (m : MatchEntry) :
    ExclFrame acc.1 (sync2MatchStep ai validations mp1 mp2 get1 get2 acc m).1 := by
  intro mp i c hex
  unfold sync2MatchStep
  cases h1 : truthyOpt (get1 m) with
  | none => cases truthyOpt (get2 m) <;> rfl
  | some col1 =>
  cases h2 : truthyOpt (get2 m) with
  | none => rfl
  | some col2 =>
  simp only
  by_cases hskip : (is_excluded_column col1 || is_excluded_column col2) = true
  · rw [if_pos hskip]
  · rw [if_neg hskip]
    simp only [Bool.or_eq_true, not_or, Bool.not_eq_true] at hskip
    obtain ⟨hc1, hc2⟩ := hskip
    by_cases hcols : ((acc.1.get mp1).hasCol col1 && (acc.1.get mp2).hasCol col2) = true
    · rw [if_neg (by simp [hcols])]
      cases hs : sync_two_columns ai validations acc.1 mp1 mp2 col1 col2 with
      | mk d cnt =>
        simp only [hs]
        have hout := sync_two_columns_outside ai validations acc.1 mp1 mp2 col1 col2
        rw [hs] at hout
        refine hout mp i c (Or.inr ?_) (Or.inr ?_)
        · intro hc; subst hc; rw [hex] at hc1; cases hc1
        · intro hc; subst hc; rw [hex] at hc2; cases hc2
    · rw [if_pos (by simp only [Bool.not_eq_true] at hcols; simp [hcols])]

theorem ExclFrame_refl (dfs : Dfs) : ExclFrame dfs dfs := fun _ _ _ _ => rfl

theorem ExclFrame_trans {a b c : Dfs} (h1 : ExclFrame a b) (h2 : ExclFrame b c) :
    ExclFrame a c := by
  intro mp i col hex
  rw [h2 mp i col hex, h1 mp i col hex]

theorem excl_foldl {α : Type} (f : Dfs × ℕ → α → Dfs × ℕ)
    (hf : ∀ acc a, ExclFrame acc.1 (f acc a).1) (l : List α) (start : Dfs × ℕ) :
    ExclFrame start.1 (l.foldl f start).1 := by
  induction l generalizing start with
  | nil => exact ExclFrame_refl _
  | cons a as ih =>
    rw [List.foldl_cons]
    exact ExclFrame_trans (hf start a) (ih (f start a))

theorem sync_all_matches_excl (ai : ValueOracle) (validations : Validations)
    (cmp : CompResult) (dfs : Dfs) :
    ExclFrame dfs (sync_all_matches ai validations cmp dfs) := by
  unfold sync_all_matches sync_two_way_matches sync_three_way_matches
    sync_two_way_bucket
  have h3 := excl_foldl _ (sync3MatchStep_excl ai validations) cmp.all3 (dfs, 0)
  have h12 := excl_foldl _
    (sync2MatchStep_excl ai validations .wb .ozon (fun m => m.c1) (fun m => m.c2))
    cmp.m12 ((cmp.all3.foldl (sync3MatchStep ai validations) (dfs, 0)).1, 0)
  have h13 := excl_foldl _
    (sync2MatchStep_excl ai validations .wb .yandex (fun m => m.c1) (fun m => m.c3))
    cmp.m13
    (cmp.m12.foldl (sync2MatchStep ai validations .wb .ozon (fun m => m.c1)
      (fun m => m.c2)) ((cmp.all3.foldl (sync3MatchStep ai validations) (dfs, 0)).1, 0))
  have h23 := excl_foldl _
    (sync2MatchStep_excl ai validations .ozon .yandex (fun m => m.c2) (fun m => m.c3))
    cmp.m23
    (cmp.m13.foldl (sync2MatchStep ai validations .wb .yandex (fun m => m.c1)
      (fun m => m.c3))
      (cmp.m12.foldl (sync2MatchStep ai validations .wb .ozon (fun m => m.c1)
        (fun m => m.c2)) ((cmp.all3.foldl (sync3MatchStep ai validations) (dfs, 0)).1, 0)))
  exact ExclFrame_trans h3 (ExclFrame_trans h12 (ExclFrame_trans h13 h23))

/-- C3 counterexample: the Column Matching Engine filters excluded columns
from the Oracle's *input*, but an Oracle response proposing the excluded
price columns lands in the produced three-way correspondence set
unfiltered. -/
theorem excluded_in_oracle_match_counterexample :
    is_excluded_column "Цена" = true ∧
    ((compare_columns
        ⟨[⟨some "Цена", some "Цена, руб.*", some "Цена *", 1, false⟩],
          [], [], [], [], [], []⟩
        ⟨[], [], [], [], [], [], []⟩
        ["Цена"] ["Цена, руб.*"] ["Цена *"]).all3.any
      (fun m => m.c1 == some "Цена")) = true := by
  refine ⟨by decide, by decide⟩

/-- C3 (amended): excluded columns are removed from the lists sent to the
Oracle, and no cell of an excluded column is ever changed by the three-way
or two-way propagation passes; an Oracle response naming an excluded
column, however, stays in the produced correspondence set. -/
theorem exclusion_enforcement (cols : List String) (c : String)
    (ai : ValueOracle) (validations : Validations) (cmp : CompResult)
    (dfs : Dfs) (mp : MP) (i : ℕ) (hex : is_excluded_column c = true) :
    c ∉ (filter_excluded_columns cols).1 ∧
    ((sync_all_matches ai validations cmp dfs).get mp).getAt i c =
      ((dfs.get mp).getAt i c) := by
  constructor
  · intro hmem
    unfold filter_excluded_columns at hmem
    have hm := List.mem_filter.mp hmem
    rw [hex] at hm
    simp at hm
  · exact sync_all_matches_excl ai validations cmp dfs mp i c hex

theorem exclusion_enforcement_witness :
    "Цена" ∉ (filter_excluded_columns ["Цена", "Бренд"]).1 ∧
    ((sync_all_matches none (fun _ _ => []) ⟨[], [], [], [], [], [], []⟩
        ⟨⟨[], []⟩, ⟨[], []⟩, ⟨[], []⟩⟩).get MP.wb).getAt 0 "Цена" =
      ((⟨⟨[], []⟩, ⟨[], []⟩, ⟨[], []⟩⟩ : Dfs).get MP.wb).getAt 0 "Цена" :=
  exclusion_enforcement ["Цена", "Бренд"] "Цена" none (fun _ _ => [])
    ⟨[], [], [], [], [], [], []⟩ ⟨⟨[], []⟩, ⟨[], []⟩, ⟨[], []⟩⟩ MP.wb 0 (by decide)

/-! ### Row aligner: union coverage (C2) -/

theorem dropWhile_head_false {p : Char → Bool} {l : List Char} {c : Char}
    {cs : List Char} (h : l.dropWhile p = c :: cs) : p c = false := by
  induction l with
  | nil => simp at h
  | cons d ds ih =>
    by_cases hd : p d = true
    · rw [List.dropWhile_cons_of_pos hd] at h
      exact ih h
    · rw [List.dropWhile_cons_of_neg hd] at h
      cases h
      simpa using hd

theorem dropWhile_eq_self_of_head {p : Char → Bool} {l : List Char}
    (h : ∀ c cs, l = c :: cs → p c = false) : l.dropWhile p = l := by
  cases l with
  | nil => rfl
  | cons c cs => exact List.dropWhile_cons_of_neg (by simp [h c cs rfl])

theorem pyStrip_idem (s : String) : pyStrip (pyStrip s) = pyStrip s := by
  unfold pyStrip
  set l1 := s.data.dropWhile Char.isWhitespace with hl1
  set l2 := (l1.reverse.dropWhile Char.isWhitespace).reverse with hl2
  show (⟨((l2.dropWhile Char.isWhitespace).reverse.dropWhile
    Char.isWhitespace).reverse⟩ : String) = ⟨l2⟩
  have hpre : l2 <+: l1 := by
    have hd : (l1.reverse.dropWhile Char.isWhitespace) <:+ l1.reverse :=
      List.dropWhile_suffix _
    have h := List.reverse_prefix.mpr hd
    rw [List.reverse_reverse] at h
    exact h
  have h2 : l2.dropWhile Char.isWhitespace = l2 := by
    apply dropWhile_eq_self_of_head
    intro c cs hcc
    obtain ⟨t, ht⟩ := hpre
    rw [hcc] at ht
    have hh : s.data.dropWhile Char.isWhitespace = c :: (cs ++ t) := by
      rw [← hl1, ← ht]; rfl
    exact dropWhile_head_false hh
  rw [h2]
  have h3 : l2.reverse.dropWhile Char.isWhitespace = l2.reverse := by
    apply dropWhile_eq_self_of_head
    intro c cs hcc
    rw [hl2, List.reverse_reverse] at hcc
    exact dropWhile_head_false hcc
  rw [h3, List.reverse_reverse]

theorem mem_unionList (a : String) (l : List String) :
    ∀ acc, a ∈ unionList acc l ↔ a ∈ acc ∨ a ∈ l := by
  induction l with
  | nil => intro acc; simp [unionList]
  | cons x xs ih =>
    intro acc
    rw [unionList]
    by_cases hx : pyElem x acc = true
    · rw [if_pos hx, ih]
      constructor
      · rintro (h | h)
        · exact Or.inl h
        · exact Or.inr (List.mem_cons_of_mem _ h)
      · rintro (h | h)
        · exact Or.inl h
        · rcases List.mem_cons.mp h with rfl | h
          · exact Or.inl ((pyElem_iff_mem _ _).mp hx)
          · exact Or.inr h
    · rw [if_neg hx, ih]
      constructor
      · rintro (h | h)
        · rcases List.mem_append.mp h with h | h
          · exact Or.inl h
          · rcases List.mem_singleton.mp h with rfl
            exact Or.inr (List.mem_cons_self _ _)
        · exact Or.inr (List.mem_cons_of_mem _ h)
      · rintro (h | h)
        · exact Or.inl (List.mem_append.mpr (Or.inl h))
        · rcases List.mem_cons.mp h with rfl | h
          · exact Or.inl (List.mem_append.mpr (Or.inr (by simp)))
          · exact Or.inr h

theorem nodup_unionList (l : List String) :
    ∀ acc, acc.Nodup → (unionList acc l).Nodup := by
  induction l with
  | nil => intro acc h; exact h
  | cons x xs ih =>
    intro acc hacc
    rw [unionList]
    by_cases hx : pyElem x acc = true
    · rw [if_pos hx]; exact ih acc hacc
    · rw [if_neg hx]
      refine ih _ ?_
      rw [List.nodup_append]
      refine ⟨hacc, List.nodup_singleton x, ?_⟩
      intro b hb hc
      rcases List.mem_singleton.mp hc with rfl
      exact hx ((pyElem_iff_mem _ _).mpr hb)

theorem mem_insertSorted (a x : String) (l : List String) :
    a ∈ insertSorted x l ↔ a = x ∨ a ∈ l := by
  induction l with
  | nil => simp [insertSorted]
  | cons y ys ih =>
    rw [insertSorted]
    by_cases hlt : pyLexLt x.data y.data = true
    · rw [if_pos hlt]
      simp [List.mem_cons]
    · rw [if_neg hlt]
      simp only [List.mem_cons, ih]
      tauto

theorem insertSorted_perm (x : String) (l : List String) :
    List.Perm (insertSorted x l) (x :: l) := by
  induction l with
  | nil => exact List.Perm.refl _
  | cons y ys ih =>
    rw [insertSorted]
    by_cases hlt : pyLexLt x.data y.data = true
    · rw [if_pos hlt]
    · rw [if_neg hlt]
      exact (ih.cons y).trans (List.Perm.swap x y ys)


theorem sortStrings_perm (l : List String) : List.Perm (sortStrings l) l := by
  induction l with
  | nil => exact List.Perm.refl _
  | cons x xs ih =>
    rw [sortStrings]
    exact (insertSorted_perm x (sortStrings xs)).trans (ih.cons x)

/-- What survives the identifier-cleaning pipeline: a stripped, non-blank,
keyword-free string of length below 50. -/
def ValidId (a : String) : Prop :=
  pyStrip a = a ∧ a.isEmpty = false ∧ hasGuidanceKw a = false ∧ a.length < 50

theorem cleanArticles_valid {a : String} {cells : List Cell}
    (h : a ∈ cleanArticles cells) : ValidId a := by
  unfold cleanArticles at h
  obtain ⟨h, hlen⟩ := List.mem_filter.mp h
  obtain ⟨h, hkw⟩ := List.mem_filter.mp h
  obtain ⟨h, hne⟩ := List.mem_filter.mp h
  obtain ⟨c, _, rfl⟩ := List.mem_map.mp h
  refine ⟨pyStrip_idem _, ?_, ?_, ?_⟩
  · rw [Bool.not_eq_true'] at hne
    exact hne
  · rw [Bool.not_eq_true'] at hkw
    exact hkw
  · exact of_decide_eq_true hlen

theorem cleanArticles_append (xs ys : List Cell) :
    cleanArticles (xs ++ ys) = cleanArticles xs ++ cleanArticles ys := by
  simp only [cleanArticles, List.filter_append, List.map_append]

theorem cleanArticles_map_str (l : List String)
    (h : ∀ a ∈ l, ValidId a) : cleanArticles (l.map Cell.str) = l := by
  induction l with
  | nil => rfl
  | cons a as ih =>
    obtain ⟨h1, h2, h3, h4⟩ := h a (List.mem_cons_self a as)
    have hrec := ih (fun b hb => h b (List.mem_cons_of_mem a hb))
    simp only [cleanArticles, List.map_cons] at hrec ⊢
    rw [show ((Cell.str a :: as.map Cell.str).filter cellNotNa)
        = Cell.str a :: ((as.map Cell.str).filter cellNotNa) from rfl,
      List.map_cons,
      show pyStrip (cellStr (Cell.str a)) = a from h1,
      List.filter_cons]
    rw [if_pos (show (!a.isEmpty) = true by rw [h2]; rfl)]
    rw [List.filter_cons, if_pos (show (!hasGuidanceKw a) = true by rw [h3]; rfl)]
    rw [List.filter_cons, if_pos (decide_eq_true h4)]
    rw [hrec]

theorem newRow_getCell (cols : List String) (artCol : String) (a : String)
    (h : artCol ∈ cols) :
    (Row.setCell (cols.map (fun c => (c, Cell.na))) artCol
        (Cell.str a)).getCell artCol = Cell.str a := by
  apply getCell_setCell_mem
  simpa using h

theorem clean_rows_split (T D : List Row) (artCol : String)
    (cols : List String) (hart : artCol ∈ cols) (miss : List String)
    (hvalm : ∀ x ∈ miss, ValidId x) :
    cleanArticles ((T ++ (sortStrings miss).map (fun x =>
        Row.setCell (cols.map (fun c => (c, Cell.na))) artCol (Cell.str x)) ++ D).map
      (fun r => r.getCell artCol)) =
    cleanArticles (T.map (fun r => r.getCell artCol)) ++ sortStrings miss ++
      cleanArticles (D.map (fun r => r.getCell artCol)) := by
  rw [List.map_append, List.map_append, cleanArticles_append, cleanArticles_append]
  congr 1
  congr 1
  rw [List.map_map]
  have hmap : ((fun r => Row.getCell r artCol) ∘ fun x =>
      Row.setCell (cols.map (fun c => (c, Cell.na))) artCol (Cell.str x)) =
      fun x => Cell.str x := by
    funext x
    exact newRow_getCell cols artCol x hart
  rw [hmap]
  exact cleanArticles_map_str _
    (fun x hx => hvalm x ((sortStrings_perm miss).mem_iff.mp hx))

theorem add_missing_spec (df : Df) (artCol : String) (allArts : List String)
    (hcol : df.hasCol artCol = true)
    (hsub : ∀ a ∈ cleanArticles (articleCells df artCol), a ∈ allArts)
    (hnd : allArts.Nodup)
    (hval : ∀ a ∈ allArts, ValidId a)
    (a : String) :
    (a ∈ cleanArticles (articleCells
        (add_missing_articles df artCol allArts) artCol) ↔ a ∈ allArts) ∧
    (cleanArticles (articleCells
        (add_missing_articles df artCol allArts) artCol)).count a ≤
      max ((cleanArticles (articleCells df artCol)).count a) 1 := by
  have hart : artCol ∈ df.cols := (pyElem_iff_mem _ _).mp hcol
  by_cases hm : (allArts.filter
      (fun x => !pyElem x (cleanArticles (articleCells df artCol)))).isEmpty = true
  · have hdf : add_missing_articles df artCol allArts = df := by
      simp only [add_missing_articles]
      rw [if_pos hm]
    rw [hdf]
    refine ⟨⟨fun h => hsub a h, ?_⟩, le_max_left _ _⟩
    intro ha
    have hnil : allArts.filter
        (fun x => !pyElem x (cleanArticles (articleCells df artCol))) = [] :=
      List.isEmpty_iff.mp hm
    by_contra hne
    have hmem : a ∈ allArts.filter
        (fun x => !pyElem x (cleanArticles (articleCells df artCol))) := by
      refine List.mem_filter.mpr ⟨ha, ?_⟩
      simp only [Bool.not_eq_true']
      exact Bool.eq_false_iff.mpr (fun hc => hne ((pyElem_iff_mem _ _).mp hc))
    rw [hnil] at hmem
    exact absurd hmem (List.not_mem_nil a)
  · obtain ⟨T, D, hTD, hrows⟩ :
        ∃ T D, T ++ D = df.rows ∧
          (add_missing_articles df artCol allArts).rows =
            T ++ (sortStrings (allArts.filter (fun x => !pyElem x
              (cleanArticles (articleCells df artCol))))).map (fun x =>
                Row.setCell (df.cols.map (fun c => (c, Cell.na))) artCol
                  (Cell.str x)) ++ D := by
      simp only [add_missing_articles]
      rw [if_neg hm]
      cases hlf : (validPositions df artCol).getLast? with
      | none =>
        refine ⟨[], df.rows, rfl, ?_⟩
        simp
      | some pos =>
        refine ⟨df.rows.take (pos + 1), df.rows.drop (pos + 1),
          List.take_append_drop _ _, ?_⟩
        simp
    have hvalm : ∀ x ∈ allArts.filter (fun x => !pyElem x
        (cleanArticles (articleCells df artCol))), ValidId x :=
      fun x hx => hval x (List.mem_filter.mp hx).1
    have hsplit : cleanArticles (articleCells
        (add_missing_articles df artCol allArts) artCol) =
        cleanArticles (T.map (fun r => r.getCell artCol)) ++
          sortStrings (allArts.filter (fun x => !pyElem x
            (cleanArticles (articleCells df artCol)))) ++
          cleanArticles (D.map (fun r => r.getCell artCol)) := by
      rw [articleCells, hrows]
      exact clean_rows_split T D artCol df.cols hart _ hvalm
    have hold : cleanArticles (articleCells df artCol) =
        cleanArticles (T.map (fun r => r.getCell artCol)) ++
          cleanArticles (D.map (fun r => r.getCell artCol)) := by
      rw [articleCells, ← hTD, List.map_append, cleanArticles_append]
    constructor
    · rw [hsplit]
      simp only [List.mem_append]
      rw [(sortStrings_perm _).mem_iff]
      constructor
      · rintro ((h | h) | h)
        · exact hsub a (by rw [hold]; exact List.mem_append.mpr (Or.inl h))
        · exact (List.mem_filter.mp h).1
        · exact hsub a (by rw [hold]; exact List.mem_append.mpr (Or.inr h))
      · intro ha
        by_cases he : pyElem a (cleanArticles (articleCells df artCol)) = true
        · have := (pyElem_iff_mem _ _).mp he
          rw [hold] at this
          rcases List.mem_append.mp this with h | h
          · exact Or.inl (Or.inl h)
          · exact Or.inr h
        · refine Or.inl (Or.inr ?_)
          exact List.mem_filter.mpr ⟨ha, by simp [he]⟩
    · have hE : (cleanArticles (articleCells df artCol)).count a =
          (cleanArticles (T.map (fun r => r.getCell artCol))).count a +
            (cleanArticles (D.map (fun r => r.getCell artCol))).count a := by
        rw [hold, List.count_append]
      rw [hsplit, List.count_append, List.count_append,
        (sortStrings_perm _).count_eq, hE]
      by_cases hmem : a ∈ allArts.filter (fun x => !pyElem x
          (cleanArticles (articleCells df artCol)))
      · have hnotE : a ∉ cleanArticles (articleCells df artCol) := by
          have := (List.mem_filter.mp hmem).2
          rw [Bool.not_eq_true'] at this
          exact fun hc => by rw [(pyElem_iff_mem _ _).mpr hc] at this; cases this
        rw [hold] at hnotE
        have hT0 : (cleanArticles (T.map (fun r => r.getCell artCol))).count a = 0 :=
          List.count_eq_zero.mpr (fun hc => hnotE (List.mem_append.mpr (Or.inl hc)))
        have hD0 : (cleanArticles (D.map (fun r => r.getCell artCol))).count a = 0 :=
          List.count_eq_zero.mpr (fun hc => hnotE (List.mem_append.mpr (Or.inr hc)))
        rw [hT0, hD0, List.count_eq_one_of_mem (hnd.filter _) hmem]
        exact le_trans (by omega) (le_max_right _ 1)
      · rw [List.count_eq_zero.mpr hmem]
        exact le_trans (by omega) (le_max_left _ 1)

theorem collect_unfold (dfs : Dfs)
    (hwb : dfs.wb.hasCol (ARTICLE_COLUMNS MP.wb) = true)
    (hoz : dfs.ozon.hasCol (ARTICLE_COLUMNS MP.ozon) = true)
    (hya : dfs.yandex.hasCol (ARTICLE_COLUMNS MP.yandex) = true) :
    collect_all_articles dfs =
      unionList (unionList (unionList []
        (cleanArticles (articleCells dfs.wb (ARTICLE_COLUMNS MP.wb))))
        (cleanArticles (articleCells dfs.ozon (ARTICLE_COLUMNS MP.ozon))))
        (cleanArticles (articleCells dfs.yandex (ARTICLE_COLUMNS MP.yandex))) := by
  simp only [collect_all_articles, List.foldl, Dfs.get, hwb, hoz, hya, if_true]

theorem collect_nodup (dfs : Dfs) : (collect_all_articles dfs).Nodup := by
  simp only [collect_all_articles, List.foldl]
  split_ifs <;>
    repeat first
      | exact List.nodup_nil
      | refine nodup_unionList _ _ ?_

theorem mem_collect (dfs : Dfs) (a : String)
    (hwb : dfs.wb.hasCol (ARTICLE_COLUMNS MP.wb) = true)
    (hoz : dfs.ozon.hasCol (ARTICLE_COLUMNS MP.ozon) = true)
    (hya : dfs.yandex.hasCol (ARTICLE_COLUMNS MP.yandex) = true) :
    a ∈ collect_all_articles dfs ↔
      a ∈ cleanArticles (articleCells dfs.wb (ARTICLE_COLUMNS MP.wb)) ∨
      a ∈ cleanArticles (articleCells dfs.ozon (ARTICLE_COLUMNS MP.ozon)) ∨
      a ∈ cleanArticles (articleCells dfs.yandex (ARTICLE_COLUMNS MP.yandex)) := by
  rw [collect_unfold dfs hwb hoz hya]
  simp only [mem_unionList, List.not_mem_nil, false_or, or_assoc]

theorem collect_valid (dfs : Dfs) (a : String)
    (hwb : dfs.wb.hasCol (ARTICLE_COLUMNS MP.wb) = true)
    (hoz : dfs.ozon.hasCol (ARTICLE_COLUMNS MP.ozon) = true)
    (hya : dfs.yandex.hasCol (ARTICLE_COLUMNS MP.yandex) = true)
    (h : a ∈ collect_all_articles dfs) : ValidId a := by
  rcases (mem_collect dfs a hwb hoz hya).mp h with h | h | h <;>
    exact cleanArticles_valid h

theorem align_articles_eq (dfs : Dfs)
    (hwb : dfs.wb.hasCol (ARTICLE_COLUMNS MP.wb) = true)
    (hoz : dfs.ozon.hasCol (ARTICLE_COLUMNS MP.ozon) = true)
    (hya : dfs.yandex.hasCol (ARTICLE_COLUMNS MP.yandex) = true) :
    align_articles dfs =
      ⟨add_missing_articles dfs.wb (ARTICLE_COLUMNS MP.wb)
          (collect_all_articles dfs),
        add_missing_articles dfs.ozon (ARTICLE_COLUMNS MP.ozon)
          (collect_all_articles dfs),
        add_missing_articles dfs.yandex (ARTICLE_COLUMNS MP.yandex)
          (collect_all_articles dfs)⟩ := by
  simp only [align_articles, Dfs.set, hwb, hoz, hya, if_true]

/-- C2: after the row aligner runs (each catalog having its identifier
column), a cleaned identifier is present in a catalog's table exactly when
it is in the union of the three original cleaned identifier sets, and no
identifier occupies more valid rows than it did before beyond the single
row created for an identifier that was absent. -/
theorem align_union_coverage (dfs : Dfs)
    (hwb : dfs.wb.hasCol (ARTICLE_COLUMNS MP.wb) = true)
    (hoz : dfs.ozon.hasCol (ARTICLE_COLUMNS MP.ozon) = true)
    (hya : dfs.yandex.hasCol (ARTICLE_COLUMNS MP.yandex) = true)
    (mp : MP) (a : String) :
    (a ∈ cleanArticles (articleCells ((align_articles dfs).get mp)
        (ARTICLE_COLUMNS mp)) ↔ a ∈ collect_all_articles dfs) ∧
    (cleanArticles (articleCells ((align_articles dfs).get mp)
        (ARTICLE_COLUMNS mp))).count a ≤
      max ((cleanArticles (articleCells (dfs.get mp)
        (ARTICLE_COLUMNS mp))).count a) 1 := by
  have hval := fun b => collect_valid dfs b hwb hoz hya
  have hnd := collect_nodup dfs
  rw [align_articles_eq dfs hwb hoz hya]
  cases mp with
  | wb =>
    exact add_missing_spec dfs.wb (ARTICLE_COLUMNS MP.wb) _ hwb
      (fun b hb => (mem_collect dfs b hwb hoz hya).mpr (Or.inl hb)) hnd hval a
  | ozon =>
    exact add_missing_spec dfs.ozon (ARTICLE_COLUMNS MP.ozon) _ hoz
      (fun b hb => (mem_collect dfs b hwb hoz hya).mpr (Or.inr (Or.inl hb)))
      hnd hval a
  | yandex =>
    exact add_missing_spec dfs.yandex (ARTICLE_COLUMNS MP.yandex) _ hya
      (fun b hb => (mem_collect dfs b hwb hoz hya).mpr (Or.inr (Or.inr hb)))
      hnd hval a

theorem align_union_coverage_witness :
    (⟨⟨["Артикул продавца"], [[("Артикул продавца", Cell.str "A1")]]⟩,
      ⟨["Артикул*"], [[("Артикул*", Cell.str "B2")]]⟩,
      ⟨["Ваш SKU *"], [[("Ваш SKU *", Cell.na)]]⟩⟩ : Dfs).wb.hasCol
        (ARTICLE_COLUMNS MP.wb) = true ∧
    (("B2" ∈ cleanArticles (articleCells ((align_articles
        ⟨⟨["Артикул продавца"], [[("Артикул продавца", Cell.str "A1")]]⟩,
          ⟨["Артикул*"], [[("Артикул*", Cell.str "B2")]]⟩,
          ⟨["Ваш SKU *"], [[("Ваш SKU *", Cell.na)]]⟩⟩).get MP.wb)
        (ARTICLE_COLUMNS MP.wb)) ↔
      "B2" ∈ collect_all_articles
        ⟨⟨["Артикул продавца"], [[("Артикул продавца", Cell.str "A1")]]⟩,
          ⟨["Артикул*"], [[("Артикул*", Cell.str "B2")]]⟩,
          ⟨["Ваш SKU *"], [[("Ваш SKU *", Cell.na)]]⟩⟩) ∧
      (cleanArticles (articleCells ((align_articles
        ⟨⟨["Артикул продавца"], [[("Артикул продавца", Cell.str "A1")]]⟩,
          ⟨["Артикул*"], [[("Артикул*", Cell.str "B2")]]⟩,
          ⟨["Ваш SKU *"], [[("Ваш SKU *", Cell.na)]]⟩⟩).get MP.wb)
        (ARTICLE_COLUMNS MP.wb))).count "B2" ≤
        max ((cleanArticles (articleCells
          ((⟨⟨["Артикул продавца"], [[("Артикул продавца", Cell.str "A1")]]⟩,
            ⟨["Артикул*"], [[("Артикул*", Cell.str "B2")]]⟩,
            ⟨["Ваш SKU *"], [[("Ваш SKU *", Cell.na)]]⟩⟩ : Dfs).get MP.wb)
          (ARTICLE_COLUMNS MP.wb))).count "B2") 1) :=
  ⟨by decide,
    align_union_coverage
      ⟨⟨["Артикул продавца"], [[("Артикул продавца", Cell.str "A1")]]⟩,
        ⟨["Артикул*"], [[("Артикул*", Cell.str "B2")]]⟩,
        ⟨["Ваш SKU *"], [[("Ваш SKU *", Cell.na)]]⟩⟩
      (by decide) (by decide) (by decide) MP.wb "B2"⟩

/-! ### Engine idempotence (C1) -/

theorem create_map_aux (df : Df) (artCol valCol : String) :
    ∀ (l : List (ℕ × Row)) (m0 : List (String × ℕ × Cell)),
      (∀ p ∈ l, df.rows[p.1]? = some p.2) →
      (∀ e ∈ m0, df.getAt e.2.1 valCol = e.2.2) →
      ∀ e ∈ l.foldl (fun m p =>
        if cellNonEmpty (p.2.getCell artCol) then
          dictUpsert m (pyStrip (cellStr (p.2.getCell artCol)))
            (p.1, p.2.getCell valCol)
        else m) m0,
        df.getAt e.2.1 valCol = e.2.2 := by
  intro l
  induction l with
  | nil => intro m0 _ hm0; exact hm0
  | cons p ps ih =>
    intro m0 hl hm0
    rw [List.foldl_cons]
    refine ih _ (fun q hq => hl q (List.mem_cons_of_mem p hq)) ?_
    by_cases hne : cellNonEmpty (p.2.getCell artCol) = true
    · rw [if_pos hne]
      refine dictUpsert_forall hm0 ?_
      show df.getAt p.1 valCol = p.2.getCell valCol
      unfold Df.getAt
      rw [hl p (List.mem_cons_self p ps)]
    · rw [if_neg hne]
      exact hm0

theorem create_article_map_sound (df : Df) (artCol valCol : String)
    (a : String) (idx : ℕ) (cv : Cell)
    (h : dictGet? (create_article_map df artCol valCol) a = some (idx, cv)) :
    df.getAt idx valCol = cv := by
  have hmem := dictGet?_mem h
  have heq : create_article_map df artCol valCol = df.rows.enum.foldl
      (fun m p =>
        if cellNonEmpty (p.2.getCell artCol) then
          dictUpsert m (pyStrip (cellStr (p.2.getCell artCol)))
            (p.1, p.2.getCell valCol)
        else m) [] := rfl
  have hall := create_map_aux df artCol valCol df.rows.enum []
    (fun p hp => List.mem_enum_iff_getElem?.mp hp)
    (fun e he => absurd he (List.not_mem_nil e))
  exact hall (a, (idx, cv)) (by rw [← heq]; exact hmem)

theorem fill_from_map_preserve (ai : ValueOracle) (validations : Validations)
    (dsrc df : Df) (article artCol col : String) (sv : Cell)
    (su tu : Option MUnit) (mp : MP) (i : ℕ) (c : String)
    (hsrc : cellNonEmpty (dsrc.getAt i c) = true) :
    (fill_marketplace_value ai validations df article col sv su tu mp
        (create_article_map dsrc artCol col)
        (((dictGet? (create_article_map dsrc artCol col) article).map
          (·.2)).getD Cell.na)).1.getAt i c = df.getAt i c := by
  unfold fill_marketplace_value
  cases hm : dictGet? (create_article_map dsrc artCol col) article with
  | none =>
    simp only [hm, Option.map_none', Option.getD_none]
    rw [if_neg (by decide : ¬cellNonEmpty Cell.na = true)]
  | some e =>
    obtain ⟨idx, cv⟩ := e
    simp only [hm, Option.map_some', Option.getD_some]
    by_cases hcur : cellNonEmpty cv = true
    · rw [if_pos hcur]
    · rw [if_neg hcur]
      have hne : i ≠ idx ∨ c ≠ col := by
        by_contra hcon
        push_neg at hcon
        obtain ⟨hi, hc⟩ := hcon
        subst hi
        subst hc
        rw [create_article_map_sound dsrc artCol c article i cv hm] at hsrc
        exact hcur hsrc
      cases ht : truthyOpt (validate_multiple_values ai mp
          (convert_value sv su tu) (validations mp col)) with
      | some v =>
        simp only
        exact getAt_setAt_ne df _ hne
      | none =>
        simp only
        by_cases ha : (validations mp col).isEmpty = true
        · rw [if_pos ha]
          exact getAt_setAt_ne df _ hne
        · rw [if_neg ha]

theorem fill_composite_yandex_preserve (dfs : Dfs) (dsrc : Df)
    (article artCol colY : String) (su uW uO : Option MUnit)
    (i : ℕ) (c : String)
    (hsrc : cellNonEmpty (dsrc.getAt i c) = true) :
    (fill_composite_dimensions dfs article colY su uW uO
        (create_article_map dsrc artCol colY)
        (((dictGet? (create_article_map dsrc artCol colY) article).map
          (·.2)).getD Cell.na)).1.yandex.getAt i c = dfs.yandex.getAt i c := by
  unfold fill_composite_dimensions
  cases hm : dictGet? (create_article_map dsrc artCol colY) article with
  | none =>
    simp only [hm, Option.map_none', Option.getD_none]
    rw [if_neg (by decide : ¬cellNonEmpty Cell.na = true)]
  | some e =>
    obtain ⟨idx, cv⟩ := e
    simp only [hm, Option.map_some', Option.getD_some]
    by_cases hcur : cellNonEmpty cv = true
    · rw [if_pos hcur]
    · rw [if_neg hcur]
      have hne : i ≠ idx ∨ c ≠ colY := by
        by_contra hcon
        push_neg at hcon
        obtain ⟨hi, hc⟩ := hcon
        subst hi
        subst hc
        rw [create_article_map_sound dsrc artCol c article i cv hm] at hsrc
        exact hcur hsrc
      cases hcomp : composite_source dfs article su uW uO with
      | none => rfl
      | some comp =>
        simp only
        exact getAt_setAt_ne dfs.yandex _ hne

theorem syncThreeStep_preserve (ai : ValueOracle) (validations : Validations)
    (colW colO colY : String) (uW uO uY : Option MUnit)
    (dfs₀ d : Dfs) (hFd : Frame dfs₀ d) (acc : Dfs × ℕ) (article : String) :
    (∀ i c, cellNonEmpty (dfs₀.wb.getAt i c) = true →
      (syncThreeStep ai validations colW colO colY uW uO uY
        (create_article_map d.wb (ARTICLE_COLUMNS MP.wb) colW)
        (create_article_map d.ozon (ARTICLE_COLUMNS MP.ozon) colO)
        (create_article_map d.yandex (ARTICLE_COLUMNS MP.yandex) colY)
        acc article).1.wb.getAt i c = acc.1.wb.getAt i c) ∧
    (∀ i c, cellNonEmpty (dfs₀.ozon.getAt i c) = true →
      (syncThreeStep ai validations colW colO colY uW uO uY
        (create_article_map d.wb (ARTICLE_COLUMNS MP.wb) colW)
        (create_article_map d.ozon (ARTICLE_COLUMNS MP.ozon) colO)
        (create_article_map d.yandex (ARTICLE_COLUMNS MP.yandex) colY)
        acc article).1.ozon.getAt i c = acc.1.ozon.getAt i c) ∧
    (∀ i c, cellNonEmpty (dfs₀.yandex.getAt i c) = true →
      (syncThreeStep ai validations colW colO colY uW uO uY
        (create_article_map d.wb (ARTICLE_COLUMNS MP.wb) colW)
        (create_article_map d.ozon (ARTICLE_COLUMNS MP.ozon) colO)
        (create_article_map d.yandex (ARTICLE_COLUMNS MP.yandex) colY)
        acc article).1.yandex.getAt i c = acc.1.yandex.getAt i c) := by
  unfold syncThreeStep
  by_cases hemp : article.isEmpty = true
  · rw [if_pos hemp]
    exact ⟨fun _ _ _ => rfl, fun _ _ _ => rfl, fun _ _ _ => rfl⟩
  · rw [if_neg hemp]
    cases hsv : find_source_value
        (((dictGet? (create_article_map d.wb (ARTICLE_COLUMNS MP.wb) colW)
          article).map (·.2)).getD Cell.na)
        (((dictGet? (create_article_map d.ozon (ARTICLE_COLUMNS MP.ozon) colO)
          article).map (·.2)).getD Cell.na)
        (((dictGet? (create_article_map d.yandex (ARTICLE_COLUMNS MP.yandex) colY)
          article).map (·.2)).getD Cell.na) uW uO uY with
    | none => exact ⟨fun _ _ _ => rfl, fun _ _ _ => rfl, fun _ _ _ => rfl⟩
    | some p =>
      obtain ⟨sv, su⟩ := p
      simp only
      cases he1 : fill_marketplace_value ai validations acc.1.wb article colW sv
          su uW .wb (create_article_map d.wb (ARTICLE_COLUMNS MP.wb) colW)
          (((dictGet? (create_article_map d.wb (ARTICLE_COLUMNS MP.wb) colW)
            article).map (·.2)).getD Cell.na) with
      | mk dfW c1 =>
        cases he2 : fill_marketplace_value ai validations acc.1.ozon article colO
            sv su uO .ozon (create_article_map d.ozon (ARTICLE_COLUMNS MP.ozon) colO)
            (((dictGet? (create_article_map d.ozon (ARTICLE_COLUMNS MP.ozon) colO)
              article).map (·.2)).getD Cell.na) with
        | mk dfO c2 =>
          have hW : ∀ i c, cellNonEmpty (dfs₀.wb.getAt i c) = true →
              dfW.getAt i c = acc.1.wb.getAt i c := by
            intro i c h
            have hs : cellNonEmpty (d.wb.getAt i c) = true := by
              rw [show d.wb.getAt i c = dfs₀.wb.getAt i c from hFd MP.wb i c h]
              exact h
            have := fill_from_map_preserve ai validations d.wb acc.1.wb article
              (ARTICLE_COLUMNS MP.wb) colW sv su uW MP.wb i c hs
            rw [he1] at this
            exact this
          have hO : ∀ i c, cellNonEmpty (dfs₀.ozon.getAt i c) = true →
              dfO.getAt i c = acc.1.ozon.getAt i c := by
            intro i c h
            have hs : cellNonEmpty (d.ozon.getAt i c) = true := by
              rw [show d.ozon.getAt i c = dfs₀.ozon.getAt i c from hFd MP.ozon i c h]
              exact h
            have := fill_from_map_preserve ai validations d.ozon acc.1.ozon article
              (ARTICLE_COLUMNS MP.ozon) colO sv su uO MP.ozon i c hs
            rw [he2] at this
            exact this
          by_cases hcy : (colY == yandexCompositeCol) = true
          · rw [if_pos hcy]
            simp only [he1, he2]
            cases he3 : fill_composite_dimensions
                { acc.1 with wb := dfW, ozon := dfO } article colY su uW uO
                (create_article_map d.yandex (ARTICLE_COLUMNS MP.yandex) colY)
                (((dictGet? (create_article_map d.yandex
                  (ARTICLE_COLUMNS MP.yandex) colY) article).map
                  (·.2)).getD Cell.na) with
            | mk dfs3 c3 =>
              have hc3 := fill_composite_changes_only
                { acc.1 with wb := dfW, ozon := dfO } article colY su uW uO
                (create_article_map d.yandex (ARTICLE_COLUMNS MP.yandex) colY)
                (((dictGet? (create_article_map d.yandex
                  (ARTICLE_COLUMNS MP.yandex) colY) article).map
                  (·.2)).getD Cell.na)
              rw [he3] at hc3
              refine ⟨fun i c h => by rw [hc3.1]; exact hW i c h,
                fun i c h => by rw [hc3.2.1]; exact hO i c h, ?_⟩
              intro i c h
              have hs : cellNonEmpty (d.yandex.getAt i c) = true := by
                rw [show d.yandex.getAt i c = dfs₀.yandex.getAt i c from
                  hFd MP.yandex i c h]
                exact h
              have := fill_composite_yandex_preserve
                { acc.1 with wb := dfW, ozon := dfO } d.yandex article
                (ARTICLE_COLUMNS MP.yandex) colY su uW uO i c hs
              rw [he3] at this
              exact this
          · rw [if_neg hcy]
            simp only [he1, he2]
            cases he3 : fill_marketplace_value ai validations acc.1.yandex article
                colY sv su uY .yandex
                (create_article_map d.yandex (ARTICLE_COLUMNS MP.yandex) colY)
                (((dictGet? (create_article_map d.yandex
                  (ARTICLE_COLUMNS MP.yandex) colY) article).map
                  (·.2)).getD Cell.na) with
            | mk dfY c3 =>
              refine ⟨fun i c h => hW i c h, fun i c h => hO i c h, ?_⟩
              intro i c h
              have hs : cellNonEmpty (d.yandex.getAt i c) = true := by
                rw [show d.yandex.getAt i c = dfs₀.yandex.getAt i c from
                  hFd MP.yandex i c h]
                exact h
              have := fill_from_map_preserve ai validations d.yandex acc.1.yandex
                article (ARTICLE_COLUMNS MP.yandex) colY sv su uY MP.yandex i c hs
              rw [he3] at this
              exact this

theorem sync_three_columns_frame (ai : ValueOracle) (validations : Validations)
    (dfs₀ d : Dfs) (hFd : Frame dfs₀ d) (colW colO colY : String) :
    Frame dfs₀ (sync_three_columns ai validations d colW colO colY).1 := by
  unfold sync_three_columns
  refine foldl_inv (fun acc : Dfs × ℕ => Frame dfs₀ acc.1) _ ?_ _ _ hFd
  intro acc a hacc
  intro mp i c h
  have hstep := syncThreeStep_preserve ai validations colW colO colY
    (detect_unit colW) (detect_unit colO) (detect_unit colY) dfs₀ d hFd acc a
  cases mp with
  | wb => exact (hstep.1 i c h).trans (hacc MP.wb i c h)
  | ozon => exact (hstep.2.1 i c h).trans (hacc MP.ozon i c h)
  | yandex => exact (hstep.2.2 i c h).trans (hacc MP.yandex i c h)

theorem sync3MatchStep_frame (ai : ValueOracle) (validations : Validations)
    (dfs₀ : Dfs) (acc : Dfs × ℕ) (m : MatchEntry)
    (hacc : Frame dfs₀ acc.1) :
    Frame dfs₀ (sync3MatchStep ai validations acc m).1 := by
  intro mp i c h
  unfold sync3MatchStep
  cases h1 : truthyOpt m.c1 with
  | none => cases truthyOpt m.c2 <;> cases truthyOpt m.c3 <;> exact hacc mp i c h
  | some colW =>
  cases h2 : truthyOpt m.c2 with
  | none => cases truthyOpt m.c3 <;> exact hacc mp i c h
  | some colO =>
  cases h3 : truthyOpt m.c3 with
  | none => exact hacc mp i c h
  | some colY =>
  simp only
  by_cases hskip : (is_excluded_column colW || is_excluded_column colO ||
      is_excluded_column colY) = true
  · rw [if_pos hskip]
    exact hacc mp i c h
  · rw [if_neg hskip]
    by_cases hcols : (acc.1.wb.hasCol colW && acc.1.ozon.hasCol colO &&
        acc.1.yandex.hasCol colY) = true
    · rw [if_neg (by simp [hcols])]
      cases hs : sync_three_columns ai validations acc.1 colW colO colY with
      | mk dd cnt =>
        simp only [hs]
        have hfr := sync_three_columns_frame ai validations dfs₀ acc.1 hacc
          colW colO colY
        rw [hs] at hfr
        exact hfr mp i c h
    · rw [if_pos (by simp only [Bool.not_eq_true] at hcols; simp [hcols])]
      exact hacc mp i c h

theorem sync_three_way_matches_frame (ai : ValueOracle)
    (validations : Validations) (cmp : CompResult) (dfs : Dfs) :
    Frame dfs (sync_three_way_matches ai validations cmp dfs).1 := by
  unfold sync_three_way_matches
  exact foldl_inv (fun acc : Dfs × ℕ => Frame dfs acc.1) _
    (fun acc m hacc => sync3MatchStep_frame ai validations dfs acc m hacc)
    cmp.all3 (dfs, 0) (Frame_refl dfs)

/-- The soundness property of an article map relative to the protected
table: if the write target holds a protected non-empty cell, the recorded
current value is non-empty (so the guarded fill skips it). -/
def MapSound (dfs₀ : Dfs) (mp : MP) (col : String)
    (data : List (String × ℕ × Cell)) : Prop :=
  ∀ a idx cv, dictGet? data a = some (idx, cv) →
    cellNonEmpty ((dfs₀.get mp).getAt idx col) = true → cellNonEmpty cv = true

theorem mapSound_create (dfs₀ d : Dfs) (hFd : Frame dfs₀ d) (mp : MP)
    (col : String) :
    MapSound dfs₀ mp col
      (create_article_map (d.get mp) (ARTICLE_COLUMNS mp) col) := by
  intro a idx cv hget hne
  have hsound := create_article_map_sound (d.get mp) (ARTICLE_COLUMNS mp) col
    a idx cv hget
  rw [← hsound, hFd mp idx col hne]
  exact hne

theorem fill_preserve_of_sound (ai : ValueOracle) (validations : Validations)
    (dfs₀ : Dfs) (df : Df) (article col : String) (sv : Cell)
    (su tu : Option MUnit) (mp : MP) (data : List (String × ℕ × Cell))
    (hs : MapSound dfs₀ mp col data) (i : ℕ) (c : String)
    (h : cellNonEmpty ((dfs₀.get mp).getAt i c) = true) :
    (fill_marketplace_value ai validations df article col sv su tu mp data
      (((dictGet? data article).map (·.2)).getD Cell.na)).1.getAt i c
      = df.getAt i c := by
  unfold fill_marketplace_value
  cases hm : dictGet? data article with
  | none =>
    simp only [hm, Option.map_none', Option.getD_none]
    rw [if_neg (by decide : ¬ cellNonEmpty Cell.na = true)]
  | some e =>
    obtain ⟨idx, cv⟩ := e
    simp only [hm, Option.map_some', Option.getD_some]
    by_cases hcur : cellNonEmpty cv = true
    · rw [if_pos hcur]
    · rw [if_neg hcur]
      have hne : i ≠ idx ∨ c ≠ col := by
        by_contra hcon
        push_neg at hcon
        obtain ⟨hi, hc⟩ := hcon
        subst hi
        subst hc
        exact hcur (hs article i cv hm h)
      cases ht : truthyOpt (validate_multiple_values ai mp
          (convert_value sv su tu) (validations mp col)) with
      | some v =>
        simp only
        exact getAt_setAt_ne df _ hne
      | none =>
        simp only
        by_cases ha : (validations mp col).isEmpty = true
        · rw [if_pos ha]
          exact getAt_setAt_ne df _ hne
        · rw [if_neg ha]

theorem syncTwoFillA_frame (ai : ValueOracle) (validations : Validations)
    (dfs₀ : Dfs) (mp1 : MP) (col1 : String) (u1 u2 : Option MUnit)
    (data1 : List (String × ℕ × Cell)) (hs : MapSound dfs₀ mp1 col1 data1)
    (v2 : Cell) (base : Dfs) (article : String) (hbase : Frame dfs₀ base) :
    Frame dfs₀ (syncTwoFillA ai validations mp1 col1 u1 u2 data1
      (((dictGet? data1 article).map (·.2)).getD Cell.na) v2 base article).1 := by
  intro mp i c h
  unfold syncTwoFillA
  by_cases hcond : (!cellNonEmpty (((dictGet? data1 article).map
      (·.2)).getD Cell.na) && cellNonEmpty v2) = true
  · rw [if_pos hcond]
    dsimp only
    by_cases hmp : mp = mp1
    · subst hmp
      rw [get_set_same]
      exact (fill_preserve_of_sound ai validations dfs₀ (base.get mp) article
        col1 v2 u2 u1 mp data1 hs i c h).trans (hbase mp i c h)
    · rw [get_set_ne _ _ hmp]
      exact hbase mp i c h
  · rw [if_neg hcond]
    exact hbase mp i c h

theorem syncTwoStep_frame (ai : ValueOracle) (validations : Validations)
    (dfs₀ : Dfs) (mp1 mp2 : MP) (col1 col2 : String) (u1 u2 : Option MUnit)
    (data1 data2 : List (String × ℕ × Cell))
    (hs1 : MapSound dfs₀ mp1 col1 data1) (hs2 : MapSound dfs₀ mp2 col2 data2)
    (acc : Dfs × ℕ) (article : String) (hacc : Frame dfs₀ acc.1) :
    Frame dfs₀ (syncTwoStep ai validations mp1 mp2 col1 col2 u1 u2
      data1 data2 acc article).1 := by
  unfold syncTwoStep
  by_cases hemp : article.isEmpty = true
  · rw [if_pos hemp]
    exact hacc
  · rw [if_neg hemp]
    dsimp only
    exact syncTwoFillA_frame ai validations dfs₀ mp2 col2 u2 u1 data2 hs2 _ _
      article
      (syncTwoFillA_frame ai validations dfs₀ mp1 col1 u1 u2 data1 hs1 _ acc.1
        article hacc)

theorem sync_two_columns_frame (ai : ValueOracle) (validations : Validations)
    (dfs₀ d : Dfs) (hFd : Frame dfs₀ d) (mp1 mp2 : MP) (col1 col2 : String) :
    Frame dfs₀ (sync_two_columns ai validations d mp1 mp2 col1 col2).1 := by
  unfold sync_two_columns
  refine foldl_inv (fun acc : Dfs × ℕ => Frame dfs₀ acc.1) _ ?_ _ _ hFd
  intro acc a hacc
  exact syncTwoStep_frame ai validations dfs₀ mp1 mp2 col1 col2
    (detect_unit col1) (detect_unit col2)
    (create_article_map (d.get mp1) (ARTICLE_COLUMNS mp1) col1)
    (create_article_map (d.get mp2) (ARTICLE_COLUMNS mp2) col2)
    (mapSound_create dfs₀ d hFd mp1 col1) (mapSound_create dfs₀ d hFd mp2 col2)
    acc a hacc

theorem sync2MatchStep_frame (ai : ValueOracle) (validations : Validations)
    (dfs₀ : Dfs) (mp1 mp2 : MP) (get1 get2 : MatchEntry → Option String)
    (acc : Dfs × ℕ) (m : MatchEntry) (hacc : Frame dfs₀ acc.1) :
    Frame dfs₀ (sync2MatchStep ai validations mp1 mp2 get1 get2 acc m).1 := by
  intro mp i c h
  unfold sync2MatchStep
  cases h1 : truthyOpt (get1 m) with
  | none => cases truthyOpt (get2 m) <;> exact hacc mp i c h
  | some col1 =>
  cases h2 : truthyOpt (get2 m) with
  | none => exact hacc mp i c h
  | some col2 =>
  simp only
  by_cases hskip : (is_excluded_column col1 || is_excluded_column col2) = true
  · rw [if_pos hskip]
    exact hacc mp i c h
  · rw [if_neg hskip]
    by_cases hcols : ((acc.1.get mp1).hasCol col1 &&
        (acc.1.get mp2).hasCol col2) = true
    · rw [if_neg (by simp [hcols])]
      cases hs : sync_two_columns ai validations acc.1 mp1 mp2 col1 col2 with
      | mk dd cnt =>
        simp only [hs]
        have hfr := sync_two_columns_frame ai validations dfs₀ acc.1 hacc
          mp1 mp2 col1 col2
        rw [hs] at hfr
        exact hfr mp i c h
    · rw [if_pos (by simp only [Bool.not_eq_true] at hcols; simp [hcols])]
      exact hacc mp i c h

theorem sync_two_way_bucket_frame (ai : ValueOracle) (validations : Validations)
    (dfs₀ : Dfs) (mp1 mp2 : MP) (get1 get2 : MatchEntry → Option String)
    (start : Dfs × ℕ) (ms : List MatchEntry) (hst : Frame dfs₀ start.1) :
    Frame dfs₀ (sync_two_way_bucket ai validations mp1 mp2 get1 get2
      start ms).1 := by
  unfold sync_two_way_bucket
  exact foldl_inv (fun acc : Dfs × ℕ => Frame dfs₀ acc.1) _
    (fun acc m hacc =>
      sync2MatchStep_frame ai validations dfs₀ mp1 mp2 get1 get2 acc m hacc)
    ms start hst

theorem sync_two_way_matches_frame (ai : ValueOracle) (validations : Validations)
    (cmp : CompResult) (dfs : Dfs) :
    Frame dfs (sync_two_way_matches ai validations cmp dfs).1 := by
  unfold sync_two_way_matches
  exact sync_two_way_bucket_frame ai validations dfs .ozon .yandex _ _ _ cmp.m23
    (sync_two_way_bucket_frame ai validations dfs .wb .yandex _ _ _ cmp.m13
      (sync_two_way_bucket_frame ai validations dfs .wb .ozon _ _ (dfs, 0) cmp.m12
        (Frame_refl dfs)))

theorem sync_all_matches_frame (ai : ValueOracle) (validations : Validations)
    (cmp : CompResult) (dfs : Dfs) :
    Frame dfs (sync_all_matches ai validations cmp dfs) := by
  unfold sync_all_matches
  exact Frame_trans (sync_three_way_matches_frame ai validations cmp dfs)
    (sync_two_way_matches_frame ai validations cmp
      (sync_three_way_matches ai validations cmp dfs).1)

theorem postVisit_outside (col : String) (d : Df) (idx : ℕ) (i : ℕ) (c : String)
    (h : i ≠ idx ∨ c ≠ col) :
    (postVisit col d idx).getAt i c = d.getAt i c := by
  unfold postVisit
  by_cases h1 : cellNotNa (d.getAt idx col) = true
  · rw [if_pos h1]
    cases cellFloat (d.getAt idx col) with
    | none => rfl
    | some q =>
      show (if 100 < q then d.setAt idx col (Cell.num (mm_to_cm q)) else d).getAt
        i c = d.getAt i c
      by_cases h2 : 100 < q
      · rw [if_pos h2]
        exact getAt_setAt_ne d _ h
      · rw [if_neg h2]
  · rw [if_neg h1]

theorem postFold_outside (col : String) :
    ∀ (l : List ℕ) (d : Df) (i : ℕ) (c : String),
      (∀ j ∈ l, i ≠ j ∨ c ≠ col) →
      (l.foldl (postVisit col) d).getAt i c = d.getAt i c := by
  intro l
  induction l with
  | nil => intro d i c _; rfl
  | cons x xs ih =>
    intro d i c hout
    rw [List.foldl_cons,
      ih (postVisit col d x) i c (fun j hj => hout j (List.mem_cons_of_mem x hj)),
      postVisit_outside col d x i c (hout x (List.mem_cons_self x xs))]

theorem postprocessCol_outside (df : Df) (col : String) (i : ℕ) (c : String)
    (h : c ≠ col) :
    (postprocessCol df col).getAt i c = df.getAt i c := by
  unfold postprocessCol
  by_cases hc : (!df.hasCol col) = true
  · rw [if_pos hc]
  · rw [if_neg hc]
    exact postFold_outside col _ df i c (fun j _ => Or.inr h)

/-- C1 (amended): on an already-aligned input, one engine run leaves every
non-empty cell unchanged outside the three WB dimension columns; only those
columns can change (the WB postprocess re-divides values above 100 on every
run, so the run is not idempotent there). -/
theorem run_engine_preserves_nonempty (ai : ValueOracle)
    (validations : Validations) (cmp : CompResult) (dfs : Dfs)
    (halign : align_articles dfs = dfs) (mp : MP) (i : ℕ) (c : String)
    (h : cellNonEmpty ((dfs.get mp).getAt i c) = true) :
    ((run_engine ai validations cmp dfs).get mp).getAt i c =
        (dfs.get mp).getAt i c ∨
      (mp = MP.wb ∧ (c = wbLengthCol ∨ c = wbWidthCol ∨ c = wbHeightCol)) := by
  by_cases hdim : mp = MP.wb ∧ (c = wbLengthCol ∨ c = wbWidthCol ∨ c = wbHeightCol)
  · exact Or.inr hdim
  · left
    have hmid : Frame dfs (sync_all_matches ai validations cmp
        (sync_dimensions dfs).1) :=
      Frame_trans (sync_dimensions_frame dfs)
        (sync_all_matches_frame ai validations cmp (sync_dimensions dfs).1)
    have hmv : ((sync_all_matches ai validations cmp
        (sync_dimensions dfs).1).get mp).getAt i c = (dfs.get mp).getAt i c :=
      hmid mp i c h
    unfold run_engine
    rw [halign]
    cases mp with
    | ozon => exact hmv
    | yandex => exact hmv
    | wb =>
      have hc3 : ¬(c = wbLengthCol ∨ c = wbWidthCol ∨ c = wbHeightCol) :=
        fun hor => hdim ⟨rfl, hor⟩
      have hL : c ≠ wbLengthCol := fun he => hc3 (Or.inl he)
      have hW : c ≠ wbWidthCol := fun he => hc3 (Or.inr (Or.inl he))
      have hH : c ≠ wbHeightCol := fun he => hc3 (Or.inr (Or.inr he))
      show (postprocessCol (postprocessCol (postprocessCol
          (sync_all_matches ai validations cmp (sync_dimensions dfs).1).wb
          wbLengthCol) wbWidthCol) wbHeightCol).getAt i c =
        (dfs.get MP.wb).getAt i c
      rw [postprocessCol_outside _ wbHeightCol i c hH,
        postprocessCol_outside _ wbWidthCol i c hW,
        postprocessCol_outside _ wbLengthCol i c hL]
      exact hmv

theorem run_engine_preserves_nonempty_witness :
    align_articles (⟨⟨["Бренд"], [[("Бренд", Cell.str "X")]]⟩, ⟨[], []⟩,
        ⟨[], []⟩⟩ : Dfs) =
      ⟨⟨["Бренд"], [[("Бренд", Cell.str "X")]]⟩, ⟨[], []⟩, ⟨[], []⟩⟩ ∧
    cellNonEmpty (((⟨⟨["Бренд"], [[("Бренд", Cell.str "X")]]⟩, ⟨[], []⟩,
        ⟨[], []⟩⟩ : Dfs).get MP.wb).getAt 0 "Бренд") = true ∧
    (((run_engine none (fun _ _ => []) ⟨[], [], [], [], [], [], []⟩
        ⟨⟨["Бренд"], [[("Бренд", Cell.str "X")]]⟩, ⟨[], []⟩, ⟨[], []⟩⟩).get
        MP.wb).getAt 0 "Бренд" =
      ((⟨⟨["Бренд"], [[("Бренд", Cell.str "X")]]⟩, ⟨[], []⟩, ⟨[], []⟩⟩ : Dfs).get
        MP.wb).getAt 0 "Бренд" ∨
      (MP.wb = MP.wb ∧ ("Бренд" = wbLengthCol ∨ "Бренд" = wbWidthCol ∨
        "Бренд" = wbHeightCol))) :=
  ⟨by decide, by decide,
    run_engine_preserves_nonempty none (fun _ _ => [])
      ⟨[], [], [], [], [], [], []⟩
      ⟨⟨["Бренд"], [[("Бренд", Cell.str "X")]]⟩, ⟨[], []⟩, ⟨[], []⟩⟩
      (by decide) MP.wb 0 "Бренд" (by decide)⟩

/-- C1 counterexample: a WB length of 2500 is read as millimetres and
divided by 10 on each run: 250 after the first run, 25 after the second, so
the second run changes a cell that was non-empty after the first. -/
theorem engine_second_run_changes_cell :
    cellNonEmpty (((run_engine none (fun _ _ => []) ⟨[], [], [], [], [], [], []⟩
        ⟨⟨[wbLengthCol], [[(wbLengthCol, Cell.num 2500)]]⟩, ⟨[], []⟩,
          ⟨[], []⟩⟩).get MP.wb).getAt 0 wbLengthCol) = true ∧
    ((run_engine none (fun _ _ => []) ⟨[], [], [], [], [], [], []⟩
        (run_engine none (fun _ _ => []) ⟨[], [], [], [], [], [], []⟩
          ⟨⟨[wbLengthCol], [[(wbLengthCol, Cell.num 2500)]]⟩, ⟨[], []⟩,
            ⟨[], []⟩⟩)).get MP.wb).getAt 0 wbLengthCol ≠
      ((run_engine none (fun _ _ => []) ⟨[], [], [], [], [], [], []⟩
        ⟨⟨[wbLengthCol], [[(wbLengthCol, Cell.num 2500)]]⟩, ⟨[], []⟩,
          ⟨[], []⟩⟩).get MP.wb).getAt 0 wbLengthCol := by
  have hstage1 : sync_all_matches none (fun _ _ => []) ⟨[], [], [], [], [], [], []⟩
      (sync_dimensions (align_articles ⟨⟨[wbLengthCol],
        [[(wbLengthCol, Cell.num 2500)]]⟩, ⟨[], []⟩, ⟨[], []⟩⟩)).1 =
      ⟨⟨[wbLengthCol], [[(wbLengthCol, Cell.num 2500)]]⟩, ⟨[], []⟩, ⟨[], []⟩⟩ := by
    decide
  have hpost1 : postprocess_wb_dimensions
      ⟨⟨[wbLengthCol], [[(wbLengthCol, Cell.num 2500)]]⟩, ⟨[], []⟩, ⟨[], []⟩⟩ =
      ⟨⟨[wbLengthCol], [[(wbLengthCol, Cell.num 250)]]⟩, ⟨[], []⟩, ⟨[], []⟩⟩ := by
    show (⟨⟨[wbLengthCol], [[(wbLengthCol, Cell.num (mm_to_cm 2500))]]⟩,
      ⟨[], []⟩, ⟨[], []⟩⟩ : Dfs) = _
    rw [show mm_to_cm 2500 = (250 : ℚ) by norm_num [mm_to_cm]]
  have hrun1 : run_engine none (fun _ _ => []) ⟨[], [], [], [], [], [], []⟩
      ⟨⟨[wbLengthCol], [[(wbLengthCol, Cell.num 2500)]]⟩, ⟨[], []⟩, ⟨[], []⟩⟩ =
      ⟨⟨[wbLengthCol], [[(wbLengthCol, Cell.num 250)]]⟩, ⟨[], []⟩, ⟨[], []⟩⟩ := by
    unfold run_engine
    rw [hstage1]
    exact hpost1
  have hstage2 : sync_all_matches none (fun _ _ => []) ⟨[], [], [], [], [], [], []⟩
      (sync_dimensions (align_articles ⟨⟨[wbLengthCol],
        [[(wbLengthCol, Cell.num 250)]]⟩, ⟨[], []⟩, ⟨[], []⟩⟩)).1 =
      ⟨⟨[wbLengthCol], [[(wbLengthCol, Cell.num 250)]]⟩, ⟨[], []⟩, ⟨[], []⟩⟩ := by
    decide
  have hpost2 : postprocess_wb_dimensions
      ⟨⟨[wbLengthCol], [[(wbLengthCol, Cell.num 250)]]⟩, ⟨[], []⟩, ⟨[], []⟩⟩ =
      ⟨⟨[wbLengthCol], [[(wbLengthCol, Cell.num 25)]]⟩, ⟨[], []⟩, ⟨[], []⟩⟩ := by
    show (⟨⟨[wbLengthCol], [[(wbLengthCol, Cell.num (mm_to_cm 250))]]⟩,
      ⟨[], []⟩, ⟨[], []⟩⟩ : Dfs) = _
    rw [show mm_to_cm 250 = (25 : ℚ) by norm_num [mm_to_cm]]
  have hrun2 : run_engine none (fun _ _ => []) ⟨[], [], [], [], [], [], []⟩
      ⟨⟨[wbLengthCol], [[(wbLengthCol, Cell.num 250)]]⟩, ⟨[], []⟩, ⟨[], []⟩⟩ =
      ⟨⟨[wbLengthCol], [[(wbLengthCol, Cell.num 25)]]⟩, ⟨[], []⟩, ⟨[], []⟩⟩ := by
    unfold run_engine
    rw [hstage2]
    exact hpost2
  rw [hrun1, hrun2]
  constructor
  · decide
  · decide

end MarketSync
